import Mathlib

/-!
# tpu_msg_check: decoder of the A53LITE API message dump

A shallow embedding of `src/tpu_msg_check.c`.

* A file is the list of its bytes; `fread` at a position returns the bytes that
  are there (at most the requested count), as the C library does on a regular file.
* Standard output is a list of `Out` events, one event per `printf` call site, carrying
  the values that call prints (number formatting is not modelled, nor is the
  floating-point percentage of the last line).
* A buffer is the list of the bytes it holds. A read at an index outside the
  list has no value: every decoder returns an `Option`, and `none` stands for a
  read outside the bytes that were read from the file.
* `uint32_t` arithmetic is taken modulo `2^32`; `size_t` and `long` counters are natural
  numbers (they are bounded by the file size plus one).
* Integers are little-endian, the byte order of the platforms the tool runs on.
* `malloc` is an oracle `malloc_ok` telling whether an allocation of a given size succeeds.
* The `while` loop of `parse_binary_file` takes a fuel argument; `none` is returned when the
  fuel runs out before the loop ends.
-/

namespace TpuMsgCheck

/-! ## Constants, types and layouts -/

/-- An octet (`uint8_t`, `unsigned char`). -/
abbrev Byte := Fin 256

def MD5SUM_LEN : Nat := 16
def LIB_MAX_NAME_LEN : Nat := 64
def FUNC_MAX_NAME_LEN : Nat := 64

def API_ID_A53LITE_LOAD_LIB : Nat := 0x90000001
def API_ID_A53LITE_GET_FUNC : Nat := 0x90000002
def API_ID_A53LITE_LAUNCH_FUNC : Nat := 0x90000003
def API_ID_A53LITE_UNLOAD_LIB : Nat := 0x90000004

/-- Size of a packed struct: the sum of the widths of its fields. -/
def sizeof_struct (layout : List Nat) : Nat := layout.sum

/-- Offset of field number `i` of a packed struct: the widths of the fields before it. -/
def offsetof (layout : List Nat) (i : Nat) : Nat := (layout.take i).sum

/-- Field widths of `API_HEADER`: api_id, api_size, api_handle, api_seq, duration, result. -/
def API_HEADER_layout : List Nat := [4, 4, 8, 4, 4, 4]

/-- Field widths of `bm_api_cpu_load_library_internal_t`:
library_path, library_addr, size, library_name, md5, cur_rec. -/
def load_library_layout : List Nat := [8, 8, 4, LIB_MAX_NAME_LEN, MD5SUM_LEN, 4]

/-- Field widths of `bm1688_get_func_internal_t`: core_id, f_id, md5, func_name. -/
def get_func_layout : List Nat := [4, 4, MD5SUM_LEN, FUNC_MAX_NAME_LEN]

/-- Field widths of `bm1688_launch_func_internal_t`: f_id, size, param. -/
def launch_func_layout : List Nat := [4, 4, 4096]

/-- The value of `sizeof(API_HEADER)`. -/
def sizeof_API_HEADER : Nat := sizeof_struct API_HEADER_layout

/-- The value of `sizeof(bm_api_cpu_load_library_internal_t)`. -/
def sizeof_load_library : Nat := sizeof_struct load_library_layout

/-- The value of `sizeof(bm1688_get_func_internal_t)`. -/
def sizeof_get_func : Nat := sizeof_struct get_func_layout

/-- The decoded `API_HEADER`. -/
structure API_HEADER where
  api_id : Nat
  api_size : Nat
  api_handle : Nat
  api_seq : Nat
  duration : Nat
  result : Nat
  deriving DecidableEq, Repr

/-- One character written by `print_string`: a byte printed as it is, or as a hex escape. -/
inductive StrItem where
  | chr (b : Byte)
  | esc (b : Byte)
  deriving DecidableEq, Repr

/-- The labels passed to `print_hex` and `print_string`. -/
inductive Label where
  | lib_name
  | md5
  | func_name
  | param_preview
  | raw_payload
  deriving DecidableEq, Repr

/-- The lines of standard output, one constructor per `printf` call site. -/
inductive Out where
  /-- Lines 225-227: file name, file size, rule. -/
  | start (file_size : Nat)
  /-- Line 234: message number and offset. -/
  | msg_banner (message_count offset : Nat)
  /-- Line 241: the header could not be read in full. -/
  | header_fail (need got : Nat)
  /-- Line 111. -/
  | hdr_banner
  /-- Line 112. -/
  | hdr_api_id (api_id : Nat) (name : String)
  /-- Line 113: api_size in words and in bytes. -/
  | hdr_api_size (words bytes : Nat)
  /-- Line 114. -/
  | hdr_handle (v : Nat)
  /-- Line 115. -/
  | hdr_seq (v : Nat)
  /-- Line 116. -/
  | hdr_duration (v : Nat)
  /-- Line 117. -/
  | hdr_result (v : Nat)
  /-- Line 256: malloc failed. -/
  | alloc_fail
  /-- Line 262: fewer payload bytes read than declared. -/
  | short_payload (expected actual : Nat)
  /-- Line 282. -/
  | unknown_api
  /-- Line 289. -/
  | no_payload
  /-- Line 293. -/
  | progress (total : Nat)
  /-- Line 122. -/
  | load_lib_banner
  /-- Line 155. -/
  | get_func_banner
  /-- Line 173. -/
  | launch_func_banner
  /-- Lines 125 and 158: the payload is shorter than the struct. -/
  | size_warning (expected actual : Nat)
  /-- Lines 136 and 145. -/
  | library_path (v : Nat)
  /-- Lines 137 and 146. -/
  | library_addr (v : Nat)
  /-- Lines 138 and 147. -/
  | lib_size (v : Nat)
  /-- Line 150. -/
  | cur_rec (v : Int)
  /-- Line 165. -/
  | core_id (v : Int)
  /-- Lines 166 and 188. -/
  | f_id (v : Int)
  /-- Lines 89-99, print_string. -/
  | str (l : Label) (items : List StrItem)
  /-- Lines 79-84, print_hex: the bytes shown, whether "..." follows, and the length printed. -/
  | hex (l : Label) (shown : List Byte) (dots : Bool) (len : Nat)
  /-- Lines 177-178: the launch payload is too short for f_id and size. -/
  | launch_error (need actual : Nat)
  /-- Line 189. -/
  | param_size (v : Nat)
  /-- Line 195. -/
  | available (v : Nat)
  /-- Line 202: declared parameter size above the available bytes. -/
  | param_warning (declared avail : Nat)
  /-- Lines 296-300: message count, bytes processed, file size. -/
  | summary (message_count total file_size : Nat)
  deriving DecidableEq, Repr

/-! ## Field reader -/

/-- The unsigned value of a little-endian byte string. -/
def le_value : List Byte → Nat
  | [] => 0
  | b :: bs => b.val + 256 * le_value bs

/-- The `memcpy(&v, data + off, n)` of the source, and a read of an `n`-byte struct field at
offset `off`: the value of the `n` bytes at `off`, none if they are not all inside `data`. -/
def read_le (data : List Byte) (off n : Nat) : Option Nat :=
  if off + n ≤ data.length then some (le_value ((data.drop off).take n)) else none

/-- Reads a 32-bit integer at the pointer `data` (lines 103-107). -/
def read_uint32 (data : List Byte) : Option Nat :=
  read_le data 0 4

/-- The `int32_t` with the bits of the `uint32_t` value `v`. -/
def to_int32 (v : Nat) : Int :=
  if v < 2 ^ 31 then (v : Int) else (v : Int) - 2 ^ 32

/-! ## Printing helpers -/

/-- Lines 67-75. -/
def api_id_to_string (api_id : Nat) : String :=
  if api_id = API_ID_A53LITE_LOAD_LIB then "A53LITE_LOAD_LIB"
  else if api_id = API_ID_A53LITE_GET_FUNC then "A53LITE_GET_FUNC"
  else if api_id = API_ID_A53LITE_LAUNCH_FUNC then "A53LITE_LAUNCH_FUNC"
  else if api_id = API_ID_A53LITE_UNLOAD_LIB then "A53LITE_UNLOAD_LIB"
  else "UNKNOWN"

/-- Lines 78-85: the bytes `data[i]` for `i < len` and `i < 16`, the ellipsis when `len > 16`,
and `len`. -/
def print_hex (label : Label) (data : List Byte) (len : Nat) : Option Out :=
  if min len 16 ≤ data.length then
    some (Out.hex label (data.take (min len 16)) (decide (len > 16)) len)
  else none

/-- The loop of lines 91-98, on the pointer `data + len` and the count `max_len - len`
still to scan: it stops at the count 0 or at a zero byte. -/
def print_string_loop : List Byte → Nat → Option (List StrItem)
  | _, 0 => some []
  | [], _ + 1 => none
  | b :: rest, n + 1 =>
    if b.val = 0 then some []
    else
      (print_string_loop rest n).map fun items =>
        (if b.val ≥ 32 ∧ b.val < 127 then StrItem.chr b else StrItem.esc b) :: items

/-- Lines 88-100. -/
def print_string (label : Label) (data : List Byte) (max_len : Nat) : Option Out :=
  (print_string_loop data max_len).map (Out.str label)

/-- Lines 110-118. -/
def parse_api_header (header : API_HEADER) : List Out :=
  [Out.hdr_banner,
   Out.hdr_api_id header.api_id (api_id_to_string header.api_id),
   Out.hdr_api_size header.api_size (header.api_size * 4 % 2 ^ 32),
   Out.hdr_handle header.api_handle,
   Out.hdr_seq header.api_seq,
   Out.hdr_duration header.duration,
   Out.hdr_result header.result]

/-! ## Payload decoders -/

/-- Lines 121-151. -/
def parse_load_lib_payload (data : List Byte) (payload_bytes : Nat) : Option (List Out) :=
  if payload_bytes < sizeof_load_library then
    if payload_bytes ≥ 8 * 2 + 4 then do
      let library_path ← read_le data 0 8
      let library_addr ← read_le data 8 8
      let size ← read_le data (8 * 2) 4
      pure [Out.load_lib_banner, Out.size_warning sizeof_load_library payload_bytes,
            Out.library_path library_path, Out.library_addr library_addr, Out.lib_size size]
    else
      pure [Out.load_lib_banner, Out.size_warning sizeof_load_library payload_bytes]
  else do
    let library_path ← read_le data (offsetof load_library_layout 0) 8
    let library_addr ← read_le data (offsetof load_library_layout 1) 8
    let size ← read_le data (offsetof load_library_layout 2) 4
    let library_name ←
      print_string Label.lib_name (data.drop (offsetof load_library_layout 3)) LIB_MAX_NAME_LEN
    let md5 ← print_hex Label.md5 (data.drop (offsetof load_library_layout 4)) MD5SUM_LEN
    let cur_rec ← read_le data (offsetof load_library_layout 5) 4
    pure [Out.load_lib_banner, Out.library_path library_path, Out.library_addr library_addr,
          Out.lib_size size, library_name, md5, Out.cur_rec (to_int32 cur_rec)]

/-- Lines 154-169. -/
def parse_get_func_payload (data : List Byte) (payload_bytes : Nat) : Option (List Out) :=
  if payload_bytes < sizeof_get_func then
    pure [Out.get_func_banner, Out.size_warning sizeof_get_func payload_bytes]
  else do
    let core_id ← read_le data (offsetof get_func_layout 0) 4
    let f_id ← read_le data (offsetof get_func_layout 1) 4
    let md5 ← print_hex Label.md5 (data.drop (offsetof get_func_layout 2)) MD5SUM_LEN
    let func_name ←
      print_string Label.func_name (data.drop (offsetof get_func_layout 3)) FUNC_MAX_NAME_LEN
    pure [Out.get_func_banner, Out.core_id (to_int32 core_id), Out.f_id (to_int32 f_id),
          md5, func_name]

/-- Lines 172-205. -/
def parse_launch_func_payload (data : List Byte) (payload_bytes : Nat) : Option (List Out) :=
  if payload_bytes < 4 + 4 then
    pure [Out.launch_func_banner, Out.launch_error (4 + 4) payload_bytes]
  else do
    let f_id ← read_le data 0 4
    let param_size ← read_le data 4 4
    let param_offset := 4 + 4
    let available_param_bytes :=
      if payload_bytes > param_offset then payload_bytes - param_offset else 0
    let head := [Out.launch_func_banner, Out.f_id (to_int32 f_id), Out.param_size param_size,
                 Out.available available_param_bytes]
    if available_param_bytes > 0 then do
      let display_size := if available_param_bytes < 64 then available_param_bytes else 64
      let preview ← print_hex Label.param_preview (data.drop param_offset) display_size
      if param_size > available_param_bytes then
        pure (head ++ [preview, Out.param_warning param_size available_param_bytes])
      else
        pure (head ++ [preview])
    else
      pure head

/-- Lines 208-210. -/
def parse_unload_lib_payload (data : List Byte) (payload_bytes : Nat) : Option (List Out) :=
  parse_load_lib_payload data payload_bytes

/-! ## Stream decoder -/

/-- The `fread(buf, 1, n, file)` of a regular file at position `pos`: the bytes read. -/
def fread (file : List Byte) (pos n : Nat) : List Byte :=
  (file.drop pos).take n

/-- The header struct filled by the `fread` of line 238. -/
def decode_API_HEADER (buf : List Byte) : API_HEADER :=
  { api_id := le_value ((buf.drop (offsetof API_HEADER_layout 0)).take 4)
    api_size := le_value ((buf.drop (offsetof API_HEADER_layout 1)).take 4)
    api_handle := le_value ((buf.drop (offsetof API_HEADER_layout 2)).take 8)
    api_seq := le_value ((buf.drop (offsetof API_HEADER_layout 3)).take 4)
    duration := le_value ((buf.drop (offsetof API_HEADER_layout 4)).take 4)
    result := le_value ((buf.drop (offsetof API_HEADER_layout 5)).take 4) }

/-- The `switch` of lines 268-285. -/
def dispatch (api_id : Nat) (payload : List Byte) (payload_bytes : Nat) : Option (List Out) :=
  if api_id = API_ID_A53LITE_LOAD_LIB then parse_load_lib_payload payload payload_bytes
  else if api_id = API_ID_A53LITE_GET_FUNC then parse_get_func_payload payload payload_bytes
  else if api_id = API_ID_A53LITE_LAUNCH_FUNC then parse_launch_func_payload payload payload_bytes
  else if api_id = API_ID_A53LITE_UNLOAD_LIB then parse_unload_lib_payload payload payload_bytes
  else
    (print_hex Label.raw_payload payload (if payload_bytes < 256 then payload_bytes else 256)).map
      fun h => [Out.unknown_api, h]

/-- The variables of `parse_binary_file` that live across iterations, the position of the
`FILE`, and the output written so far. -/
structure State where
  pos : Nat
  message_count : Nat
  total_bytes_processed : Nat
  out : List Out
  deriving DecidableEq, Repr

/-- How an iteration of the loop ends: at the end of the body, or at a `break`. -/
inductive Flow where
  | next (s : State)
  | stop (s : State)
  deriving DecidableEq, Repr

/-- The body of the `while` loop, lines 233-293. -/
def loop_body (file : List Byte) (malloc_ok : Nat → Bool) (s : State) : Option Flow :=
  let message_count := s.message_count + 1
  let out := s.out ++ [Out.msg_banner message_count s.total_bytes_processed]
  let header_buf := fread file s.pos sizeof_API_HEADER
  let header_read := header_buf.length
  let pos := s.pos + header_read
  if header_read ≠ sizeof_API_HEADER then
    some (Flow.stop
      { pos := pos, message_count := message_count,
        total_bytes_processed := s.total_bytes_processed,
        out := out ++ [Out.header_fail sizeof_API_HEADER header_read] })
  else
    let header := decode_API_HEADER header_buf
    let out := out ++ parse_api_header header
    let payload_bytes := header.api_size * 4 % 2 ^ 32
    if payload_bytes > 0 then
      if malloc_ok payload_bytes = false then
        some (Flow.stop
          { pos := pos, message_count := message_count,
            total_bytes_processed := s.total_bytes_processed,
            out := out ++ [Out.alloc_fail] })
      else
        let payload := fread file pos payload_bytes
        let payload_read := payload.length
        let pos := pos + payload_read
        let short := decide (payload_read ≠ payload_bytes)
        let out := if short then out ++ [Out.short_payload payload_bytes payload_read] else out
        let payload_bytes := if short then payload_read % 2 ^ 32 else payload_bytes
        match dispatch header.api_id payload payload_bytes with
        | none => none
        | some lines =>
          let total := s.total_bytes_processed + (sizeof_API_HEADER + payload_bytes)
          some (Flow.next
            { pos := pos, message_count := message_count, total_bytes_processed := total,
              out := out ++ lines ++ [Out.progress total] })
    else
      let total := s.total_bytes_processed + (sizeof_API_HEADER + payload_bytes)
      some (Flow.next
        { pos := pos, message_count := message_count, total_bytes_processed := total,
          out := out ++ [Out.no_payload, Out.progress total] })

/-- The `while` loop of lines 232-294; `file_size` is `file.length`. -/
def parse_loop (file : List Byte) (malloc_ok : Nat → Bool) : Nat → State → Option State
  | 0, _ => none
  | fuel + 1, s =>
    if s.total_bytes_processed < file.length then
      match loop_body file malloc_ok s with
      | none => none
      | some (Flow.stop s') => some s'
      | some (Flow.next s') => parse_loop file malloc_ok fuel s'
    else some s

/-- The state at line 230, after the opening lines are printed. -/
def initial_state (file : List Byte) : State :=
  { pos := 0, message_count := 0, total_bytes_processed := 0, out := [Out.start file.length] }

/-- Lines 213-303, for a file that `fopen` opened: the state at the end of the function. -/
def parse_binary_file (file : List Byte) (malloc_ok : Nat → Bool) (fuel : Nat) : Option State :=
  (parse_loop file malloc_ok fuel (initial_state file)).map fun s =>
    { s with out := s.out ++ [Out.summary s.message_count s.total_bytes_processed file.length] }

/-! ## Inputs and observations used by the statements -/

/-- The output lines that report a problem: lines 241, 256, 262, 125/158, 177 and 202. -/
def Out.is_warning : Out → Bool
  | Out.header_fail _ _ => true
  | Out.alloc_fail => true
  | Out.short_payload _ _ => true
  | Out.size_warning _ _ => true
  | Out.launch_error _ _ => true
  | Out.param_warning _ _ => true
  | _ => false

/-- The line 262 of a short payload read. -/
def Out.is_short_payload : Out → Bool
  | Out.short_payload _ _ => true
  | _ => false

/-- The output lines that print a decoded payload field. -/
def Out.is_field : Out → Bool
  | Out.library_path _ => true
  | Out.library_addr _ => true
  | Out.lib_size _ => true
  | Out.cur_rec _ => true
  | Out.core_id _ => true
  | Out.f_id _ => true
  | Out.param_size _ => true
  | Out.str _ _ => true
  | Out.hex _ _ _ _ => true
  | _ => false

/-- The output of a full Load-Library decode: the banner and the six fields, in order. -/
def is_full_load_lib : List Out → Bool
  | [Out.load_lib_banner, Out.library_path _, Out.library_addr _, Out.lib_size _,
     Out.str Label.lib_name _, Out.hex Label.md5 _ _ _, Out.cur_rec _] => true
  | _ => false

/-- A message of the stream: the bytes of its header and the bytes of its payload. -/
structure Msg where
  header : List Byte
  payload : List Byte
  deriving DecidableEq, Repr

/-- The bytes of a message on the wire. -/
def Msg.bytes (m : Msg) : List Byte := m.header ++ m.payload

/-- The type tag in the header of a message. -/
def Msg.api_id (m : Msg) : Nat := (decode_API_HEADER m.header).api_id

/-- The payload word count in the header of a message. -/
def Msg.api_size (m : Msg) : Nat := (decode_API_HEADER m.header).api_size

/-- The concatenation of the messages. -/
def stream (ms : List Msg) : List Byte := (ms.map Msg.bytes).flatten

/-- The least payload length a type decodes in full: the struct size for the library and
get-function messages, the two leading words for launch-function, nothing for other tags. -/
def structural_minimum (api_id : Nat) : Nat :=
  if api_id = API_ID_A53LITE_LOAD_LIB then sizeof_load_library
  else if api_id = API_ID_A53LITE_GET_FUNC then sizeof_get_func
  else if api_id = API_ID_A53LITE_LAUNCH_FUNC then 4 + 4
  else if api_id = API_ID_A53LITE_UNLOAD_LIB then sizeof_load_library
  else 0

/-- A complete header followed by the payload it declares. -/
def Msg.framed (m : Msg) : Prop :=
  m.header.length = sizeof_API_HEADER ∧ m.payload.length = m.api_size * 4 % 2 ^ 32

/-- A well-formed message: a complete header whose word count is that of the payload (the
32-bit product the decoder computes), and a payload of at least the structural minimum of
its type. -/
def Msg.well_formed (m : Msg) : Prop :=
  m.framed ∧ structural_minimum m.api_id ≤ m.payload.length

/-- The parameter size a Launch-Function payload declares (the word at offset 4). -/
def declared_param_size (payload : List Byte) : Nat :=
  le_value ((payload.drop 4).take 4)

/-- A well-formed message whose launch-function parameter size, if it has parameter bytes,
is within the bytes present. -/
def Msg.consistent (m : Msg) : Prop :=
  m.well_formed ∧
    (m.api_id = API_ID_A53LITE_LAUNCH_FUNC → 4 + 4 < m.payload.length →
      declared_param_size m.payload ≤ m.payload.length - (4 + 4))

instance (m : Msg) : Decidable m.framed := by
  unfold Msg.framed; infer_instance

instance (m : Msg) : Decidable m.well_formed := by
  unfold Msg.well_formed; infer_instance

instance (m : Msg) : Decidable m.consistent := by
  unfold Msg.consistent; infer_instance

/-- The payload bytes the `fread` of line 260 returns in the iteration that starts in state
`s`: none are read when the header declares no payload. -/
def payload_read_of (file : List Byte) (s : State) : Nat :=
  let header := decode_API_HEADER (fread file s.pos sizeof_API_HEADER)
  let payload_bytes := header.api_size * 4 % 2 ^ 32
  if payload_bytes > 0 then (fread file (s.pos + sizeof_API_HEADER) payload_bytes).length else 0

/-- The state after `k` iterations of the loop that ran to the end of the body; none when the
loop ended, or left by a `break`, before that. -/
def completed (file : List Byte) (malloc_ok : Nat → Bool) : Nat → Option State
  | 0 => some (initial_state file)
  | k + 1 =>
    match completed file malloc_ok k with
    | none => none
    | some s =>
      if s.total_bytes_processed < file.length then
        match loop_body file malloc_ok s with
        | some (Flow.next s') => some s'
        | _ => none
      else none

/-- The header size plus the payload bytes read, summed over the first `k` iterations. -/
def consumed (file : List Byte) (malloc_ok : Nat → Bool) : Nat → Nat
  | 0 => 0
  | k + 1 =>
    consumed file malloc_ok k +
      (sizeof_API_HEADER +
        match completed file malloc_ok k with
        | some s => payload_read_of file s
        | none => 0)


/-- The header the iteration that starts at file position `pos` decodes. -/
def header_at (file : List Byte) (pos : Nat) : API_HEADER :=
  decode_API_HEADER (fread file pos sizeof_API_HEADER)

/-- The payload byte count that header declares, as line 250 computes it. -/
def declared_at (file : List Byte) (pos : Nat) : Nat :=
  (header_at file pos).api_size * 4 % 2 ^ 32

/-- The payload bytes that iteration reads: those that follow the header, up to the declared
count. -/
def payload_at (file : List Byte) (pos : Nat) : List Byte :=
  fread file (pos + sizeof_API_HEADER) (declared_at file pos)

/-- The lines printed for a message that is read in full, as message number `count` at offset
`offset`: the banner, the header, the decoded payload, the running total. -/
def msg_lines (count offset : Nat) (m : Msg) : List Out :=
  Out.msg_banner count offset ::
    (parse_api_header (decode_API_HEADER m.header) ++
      ((if m.payload.length = 0 then [Out.no_payload]
        else (dispatch m.api_id m.payload m.payload.length).getD []) ++
        [Out.progress (offset + (sizeof_API_HEADER + m.payload.length))]))

/-- The lines printed for a sequence of messages read in full, after `count` messages and
`offset` bytes. -/
def stream_lines : Nat → Nat → List Msg → List Out
  | _, _, [] => []
  | count, offset, m :: ms =>
    msg_lines (count + 1) offset m ++ stream_lines (count + 1) (offset + m.bytes.length) ms

/-! ## Sample inputs -/

/-- The header of the Load-Library scenario: type tag 0x90000001, 27 payload words, the
handle, sequence number 1, duration 0, result 0. -/
def scenario_header (handle : List Byte) : List Byte :=
  [0x01, 0, 0, 0x90, 0x1B, 0, 0, 0] ++ handle ++ [1, 0, 0, 0, 0, 0, 0, 0, 0, 0, 0, 0]

/-- A handle of 8 bytes. -/
def sample_handle : List Byte := [1, 2, 3, 4, 5, 6, 7, 8]

/-- A Load-Library payload of 108 bytes: two addresses, a size, the name "lib" padded with
zero bytes, a checksum, the record index -1, and 4 more bytes. -/
def sample_load_lib_payload : List Byte :=
  List.replicate 20 7 ++ [0x6C, 0x69, 0x62] ++ List.replicate 61 0 ++ List.replicate 16 0xAB ++
    [0xFF, 0xFF, 0xFF, 0xFF] ++ [0, 0, 0, 0]

/-- The message of the Load-Library scenario. -/
def sample_load_lib_msg : Msg :=
  { header := scenario_header sample_handle, payload := sample_load_lib_payload }

/-- A Launch-Function message of 3 payload words: f_id 7, declared parameter size 5000, and 4
parameter bytes. -/
def sample_launch_msg : Msg :=
  { header := [0x03, 0, 0, 0x90, 3, 0, 0, 0, 0, 0, 0, 0, 0, 0, 0, 0, 2, 0, 0, 0, 0, 0, 0, 0,
               0, 0, 0, 0]
    payload := [7, 0, 0, 0, 0x88, 0x13, 0, 0, 1, 2, 3, 4] }

/-- A Launch-Function message of 1027 payload words: f_id 7, declared parameter size 4100,
and 4100 parameter bytes. -/
def sample_big_launch_msg : Msg :=
  { header := [0x03, 0, 0, 0x90, 0x03, 0x04, 0, 0, 0, 0, 0, 0, 0, 0, 0, 0, 1, 0, 0, 0,
               0, 0, 0, 0, 0, 0, 0, 0]
    payload := [7, 0, 0, 0, 0x04, 0x10, 0, 0] ++ List.replicate 4100 0 }

/-- A header of an unknown type whose payload word count is 0x40000000. -/
def sample_wrap_header : List Byte :=
  [0, 0, 0, 0, 0, 0, 0, 0x40, 0, 0, 0, 0, 0, 0, 0, 0, 1, 0, 0, 0, 0, 0, 0, 0, 0, 0, 0, 0]

/-- A Load-Library header whose payload word count is 0. -/
def sample_empty_load_header : List Byte :=
  [0x01, 0, 0, 0x90, 0, 0, 0, 0, 0, 0, 0, 0, 0, 0, 0, 0, 1, 0, 0, 0, 0, 0, 0, 0, 0, 0, 0, 0]

/-- A message of the unknown type 0x12345678 with 5 payload words, the bytes 1 to 20. -/
def sample_unknown_msg : Msg :=
  { header := [0x78, 0x56, 0x34, 0x12, 5, 0, 0, 0, 0, 0, 0, 0, 0, 0, 0, 0, 1, 0, 0, 0,
               0, 0, 0, 0, 0, 0, 0, 0]
    payload := [1, 2, 3, 4, 5, 6, 7, 8, 9, 10, 11, 12, 13, 14, 15, 16, 17, 18, 19, 20] }

/-! ## Observations used by the statements on C11 to C20 -/

/-- The byte a character written by `print_string` stands for. -/
def StrItem.byte : StrItem → Byte
  | StrItem.chr b => b
  | StrItem.esc b => b

/-- The way `print_string` writes a byte: as it is when printable, as a hex escape when not
(the test of line 92). -/
def render_byte (b : Byte) : StrItem :=
  if b.val ≥ 32 ∧ b.val < 127 then StrItem.chr b else StrItem.esc b

/-- The lines that report a payload shorter than the structure of its type: lines 125 and 158
for the library and get-function messages, line 177 for launch-function. -/
def Out.is_truncation : Out → Bool
  | Out.size_warning _ _ => true
  | Out.launch_error _ _ => true
  | _ => false

/-- The four type tags that have a payload decoder. -/
def known_api_id (api_id : Nat) : Prop :=
  api_id = API_ID_A53LITE_LOAD_LIB ∨ api_id = API_ID_A53LITE_GET_FUNC ∨
    api_id = API_ID_A53LITE_LAUNCH_FUNC ∨ api_id = API_ID_A53LITE_UNLOAD_LIB

instance (api_id : Nat) : Decidable (known_api_id api_id) := by
  unfold known_api_id; infer_instance

/-- The ways a 32-bit read at an offset of a byte sequence can end: with a value, with a
reported out-of-bounds failure, or with an access outside the sequence, which has no defined
result. -/
inductive ReadOutcome where
  | value (v : Nat)
  | out_of_bounds
  | stray_access
  deriving DecidableEq, Repr

/-- The call `read_uint32(bytes + offset)`. The function of lines 103-107 takes a pointer and
no length, and copies 4 bytes without a check: when fewer than 4 bytes follow the offset, the
copy goes outside the sequence. -/
def read_u32_at (bytes : List Byte) (offset : Nat) : ReadOutcome :=
  match read_uint32 (bytes.drop offset) with
  | some v => ReadOutcome.value v
  | none => ReadOutcome.stray_access

/-- The least number of iterations that cover `n` bytes at a header per iteration. -/
def max_iterations (n : Nat) : Nat := (n + (sizeof_API_HEADER - 1)) / sizeof_API_HEADER

/-- A message that is well-formed in the words of the claims: a complete header, a payload
of exactly payload_words * 4 bytes (the product of the natural numbers, which does not wrap),
and at least the structural minimum of its type. -/
def Msg.well_formed_exact (m : Msg) : Prop :=
  m.header.length = sizeof_API_HEADER ∧ m.payload.length = m.api_size * 4 ∧
    structural_minimum m.api_id ≤ m.payload.length

instance (m : Msg) : Decidable m.well_formed_exact := by
  unfold Msg.well_formed_exact; infer_instance

/-- The message of unknown type whose header declares 0x40000000 payload words, with its
2^32 payload bytes. -/
def sample_wrap_msg : Msg :=
  { header := sample_wrap_header, payload := List.replicate (2 ^ 32) 0 }

/-- A Get-Function payload of 88 bytes: core_id FF FF FF FF, f_id FE FF FF FF, then 80 bytes
0x41. -/
def sample_get_func_payload : List Byte :=
  [0xFF, 0xFF, 0xFF, 0xFF, 0xFE, 0xFF, 0xFF, 0xFF] ++ List.replicate 80 0x41

/-! ## Lemmas on the readers and the decoders -/

theorem sizeof_API_HEADER_eq : sizeof_API_HEADER = 28 := rfl
theorem sizeof_load_library_eq : sizeof_load_library = 104 := rfl
theorem sizeof_get_func_eq : sizeof_get_func = 88 := rfl

theorem read_le_of_le {data : List Byte} {off n : Nat} (h : off + n ≤ data.length) :
    read_le data off n = some (le_value ((data.drop off).take n)) := by
  simp [read_le, h]

theorem print_hex_of_le (label : Label) {data : List Byte} {len : Nat}
    (h : min len 16 ≤ data.length) :
    print_hex label data len
      = some (Out.hex label (data.take (min len 16)) (decide (len > 16)) len) := by
  simp only [print_hex, h, if_true]

theorem print_string_loop_total (n : Nat) :
    ∀ data : List Byte, n ≤ data.length →
      ∃ items, print_string_loop data n = some items
        ∧ print_string_loop (data.take n) n = some items := by
  induction n with
  | zero => intro data _; exact ⟨[], by simp [print_string_loop]⟩
  | succ n ih =>
    intro data h
    cases data with
    | nil => simp at h
    | cons b rest =>
      have hr : n ≤ rest.length := by simpa using h
      obtain ⟨items, h1, h2⟩ := ih rest hr
      by_cases hb : b.val = 0
      · exact ⟨[], by simp [print_string_loop, hb]⟩
      · refine ⟨(if b.val ≥ 32 ∧ b.val < 127 then StrItem.chr b else StrItem.esc b) :: items,
          ?_, ?_⟩
        · simp only [print_string_loop, hb, if_false, h1, Option.map_some']
        · simp only [List.take_succ_cons, print_string_loop, hb, if_false, h2, Option.map_some']

theorem print_string_total (label : Label) {data : List Byte} {n : Nat} (h : n ≤ data.length) :
    ∃ items, print_string_loop (data.take n) n = some items
      ∧ print_string label data n = some (Out.str label items) := by
  obtain ⟨items, h1, h2⟩ := print_string_loop_total n data h
  exact ⟨items, h2, by simp [print_string, h1]⟩


theorem le_value_lt (l : List Byte) : le_value l < 256 ^ l.length := by
  induction l with
  | nil => simp [le_value]
  | cons b rest ih =>
    have hb := b.isLt
    simp only [le_value, List.length_cons, pow_succ]
    nlinarith

/-- The `int32_t` read of a 32-bit word is the one integer of the signed 32-bit range that
has the bits of the word: it is the word itself below 2^31 and the word minus 2^32 from
2^31 on. -/
theorem to_int32_signed (u : Nat) (h : u < 2 ^ 32) :
    -(2 : Int) ^ 31 ≤ to_int32 u ∧ to_int32 u < (2 : Int) ^ 31 ∧
    (to_int32 u - (u : Int)) % (2 : Int) ^ 32 = 0 ∧
    (u < 2 ^ 31 → to_int32 u = (u : Int)) ∧
    (2 ^ 31 ≤ u → to_int32 u = (u : Int) - (2 : Int) ^ 32) := by
  unfold to_int32
  norm_num at h ⊢
  split <;> omega

theorem le_value_take4_lt (data : List Byte) : le_value (data.take 4) < 2 ^ 32 := by
  have h := le_value_lt (data.take 4)
  have hl : (data.take 4).length ≤ 4 := by rw [List.length_take]; omega
  have h2 : 256 ^ (data.take 4).length ≤ 256 ^ 4 := Nat.pow_le_pow_right (by norm_num) hl
  have h3 : (256 : Nat) ^ 4 = 2 ^ 32 := by norm_num
  exact lt_of_lt_of_le h (h3 ▸ h2)

theorem parse_load_lib_full {data : List Byte} {n : Nat} (h : 104 ≤ n) (hl : n ≤ data.length) :
    ∃ items, print_string_loop ((data.drop 20).take 64) 64 = some items ∧
      parse_load_lib_payload data n
        = some [Out.load_lib_banner,
                Out.library_path (le_value (data.take 8)),
                Out.library_addr (le_value ((data.drop 8).take 8)),
                Out.lib_size (le_value ((data.drop 16).take 4)),
                Out.str Label.lib_name items,
                Out.hex Label.md5 ((data.drop 84).take 16) false 16,
                Out.cur_rec (to_int32 (le_value ((data.drop 100).take 4)))] := by
  have hs : 64 ≤ (data.drop 20).length := by simp; omega
  obtain ⟨items, h1, h2⟩ := print_string_total Label.lib_name hs
  refine ⟨items, h1, ?_⟩
  have hx : min 16 16 ≤ (data.drop 84).length := by simp; omega
  have e0 : offsetof load_library_layout 0 = 0 := rfl
  have e1 : offsetof load_library_layout 1 = 8 := rfl
  have e2 : offsetof load_library_layout 2 = 16 := rfl
  have e3 : offsetof load_library_layout 3 = 20 := rfl
  have e4 : offsetof load_library_layout 4 = 84 := rfl
  have e5 : offsetof load_library_layout 5 = 100 := rfl
  have r0 : read_le data 0 8 = some (le_value ((data.drop 0).take 8)) :=
    read_le_of_le (by omega)
  have r1 : read_le data 8 8 = some (le_value ((data.drop 8).take 8)) :=
    read_le_of_le (by omega)
  have r2 : read_le data 16 4 = some (le_value ((data.drop 16).take 4)) :=
    read_le_of_le (by omega)
  have r5 : read_le data 100 4 = some (le_value ((data.drop 100).take 4)) :=
    read_le_of_le (by omega)
  have hn : ¬ n < sizeof_load_library := by rw [sizeof_load_library_eq]; omega
  have hp := print_hex_of_le Label.md5 hx
  simp only [parse_load_lib_payload, hn, if_false, e0, e1, e2, e3, e4, e5, r0, r1, r2, r5,
    LIB_MAX_NAME_LEN, MD5SUM_LEN, h2, hp]
  simp

theorem parse_load_lib_short {data : List Byte} {n : Nat} (h : n < 104) (hl : n ≤ data.length) :
    parse_load_lib_payload data n
      = some (if 20 ≤ n then
          [Out.load_lib_banner, Out.size_warning sizeof_load_library n,
           Out.library_path (le_value (data.take 8)),
           Out.library_addr (le_value ((data.drop 8).take 8)),
           Out.lib_size (le_value ((data.drop 16).take 4))]
        else [Out.load_lib_banner, Out.size_warning sizeof_load_library n]) := by
  have hn : n < sizeof_load_library := by rw [sizeof_load_library_eq]; omega
  by_cases h20 : 20 ≤ n
  · have r0 : read_le data 0 8 = some (le_value ((data.drop 0).take 8)) :=
      read_le_of_le (by omega)
    have r1 : read_le data 8 8 = some (le_value ((data.drop 8).take 8)) :=
      read_le_of_le (by omega)
    have r2 : read_le data (8 * 2) 4 = some (le_value ((data.drop 16).take 4)) :=
      read_le_of_le (by omega)
    have g : n ≥ 8 * 2 + 4 := by omega
    simp only [parse_load_lib_payload, hn, if_true, g, r0, r1, r2, h20]
    simp
  · have g : ¬ n ≥ 8 * 2 + 4 := by omega
    simp only [parse_load_lib_payload, hn, if_true, g, if_false, h20]
    rfl


theorem parse_get_func_full {data : List Byte} {n : Nat} (h : 88 ≤ n) (hl : n ≤ data.length) :
    ∃ items, print_string_loop ((data.drop 24).take 64) 64 = some items ∧
      parse_get_func_payload data n
        = some [Out.get_func_banner,
                Out.core_id (to_int32 (le_value (data.take 4))),
                Out.f_id (to_int32 (le_value ((data.drop 4).take 4))),
                Out.hex Label.md5 ((data.drop 8).take 16) false 16,
                Out.str Label.func_name items] := by
  have hs : 64 ≤ (data.drop 24).length := by simp; omega
  obtain ⟨items, h1, h2⟩ := print_string_total Label.func_name hs
  refine ⟨items, h1, ?_⟩
  have hx : min 16 16 ≤ (data.drop 8).length := by simp; omega
  have e0 : offsetof get_func_layout 0 = 0 := rfl
  have e1 : offsetof get_func_layout 1 = 4 := rfl
  have e2 : offsetof get_func_layout 2 = 8 := rfl
  have e3 : offsetof get_func_layout 3 = 24 := rfl
  have r0 : read_le data 0 4 = some (le_value ((data.drop 0).take 4)) :=
    read_le_of_le (by omega)
  have r1 : read_le data 4 4 = some (le_value ((data.drop 4).take 4)) :=
    read_le_of_le (by omega)
  have hn : ¬ n < sizeof_get_func := by rw [sizeof_get_func_eq]; omega
  have hp := print_hex_of_le Label.md5 hx
  simp only [parse_get_func_payload, hn, if_false, e0, e1, e2, e3, r0, r1,
    FUNC_MAX_NAME_LEN, MD5SUM_LEN, h2, hp]
  simp

theorem parse_get_func_short {data : List Byte} {n : Nat} (h : n < 88) :
    parse_get_func_payload data n
      = some [Out.get_func_banner, Out.size_warning sizeof_get_func n] := by
  have hn : n < sizeof_get_func := by rw [sizeof_get_func_eq]; omega
  simp only [parse_get_func_payload, hn, if_true]
  rfl

theorem parse_launch_short {data : List Byte} {n : Nat} (h : n < 8) :
    parse_launch_func_payload data n
      = some [Out.launch_func_banner, Out.launch_error 8 n] := by
  have hn : n < 4 + 4 := by omega
  simp only [parse_launch_func_payload, hn, if_true]
  rfl

theorem parse_launch_full {data : List Byte} {n : Nat} (h : 8 ≤ n) (hl : n ≤ data.length) :
    parse_launch_func_payload data n
      = some ([Out.launch_func_banner,
               Out.f_id (to_int32 (le_value (data.take 4))),
               Out.param_size (declared_param_size data),
               Out.available (n - 8)]
          ++ (if 8 < n then
                [Out.hex Label.param_preview ((data.drop 8).take (min (min (n - 8) 64) 16))
                  (decide (16 < min (n - 8) 64)) (min (n - 8) 64)]
                ++ (if n - 8 < declared_param_size data then
                      [Out.param_warning (declared_param_size data) (n - 8)]
                    else [])
              else [])) := by
  have hn : ¬ n < 4 + 4 := by omega
  have r0 : read_le data 0 4 = some (le_value ((data.drop 0).take 4)) :=
    read_le_of_le (by omega)
  have r1 : read_le data 4 4 = some (le_value ((data.drop 4).take 4)) :=
    read_le_of_le (by omega)
  by_cases h8 : 8 < n
  · have a1 : n > 4 + 4 := by omega
    have a2 : n - (4 + 4) > 0 := by omega
    have hd : (if n - (4 + 4) < 64 then n - (4 + 4) else 64) = min (n - 8) 64 := by
      split <;> omega
    have hx : min (min (n - 8) 64) 16 ≤ (data.drop (4 + 4)).length := by
      simp only [List.length_drop]; omega
    have hp := print_hex_of_le Label.param_preview hx
    by_cases hw : n - 8 < declared_param_size data
    · have hw2 : le_value ((data.drop 4).take 4) > n - (4 + 4) := by
        unfold declared_param_size at hw; omega
      simp only [parse_launch_func_payload, hn, if_false, r0, r1, a1, a2, if_true, hd, hp,
        hw2, h8, hw]
      simp [declared_param_size]
      omega
    · have hw2 : ¬ le_value ((data.drop 4).take 4) > n - (4 + 4) := by
        unfold declared_param_size at hw; omega
      simp only [parse_launch_func_payload, hn, if_false, r0, r1, a1, a2, if_true, hd, hp,
        hw2, h8, hw]
      simp [declared_param_size]
      omega
  · have a1 : ¬ n > 4 + 4 := by omega
    have a2 : ¬ (0 > 0) := by omega
    simp only [parse_launch_func_payload, hn, if_false, r0, r1, a1, a2, h8]
    simp [declared_param_size]
    omega


theorem fread_length (file : List Byte) (pos n : Nat) :
    (fread file pos n).length = min n (file.length - pos) := by
  simp [fread]

theorem dispatch_cases (api_id : Nat) (data : List Byte) (n : Nat) :
    (api_id = API_ID_A53LITE_LOAD_LIB ∧ dispatch api_id data n = parse_load_lib_payload data n) ∨
    (api_id = API_ID_A53LITE_GET_FUNC ∧ dispatch api_id data n = parse_get_func_payload data n) ∨
    (api_id = API_ID_A53LITE_LAUNCH_FUNC ∧
      dispatch api_id data n = parse_launch_func_payload data n) ∨
    (api_id = API_ID_A53LITE_UNLOAD_LIB ∧
      dispatch api_id data n = parse_load_lib_payload data n) ∨
    ((api_id ≠ API_ID_A53LITE_LOAD_LIB ∧ api_id ≠ API_ID_A53LITE_GET_FUNC ∧
        api_id ≠ API_ID_A53LITE_LAUNCH_FUNC ∧ api_id ≠ API_ID_A53LITE_UNLOAD_LIB) ∧
      dispatch api_id data n
        = (print_hex Label.raw_payload data (if n < 256 then n else 256)).map
            fun h => [Out.unknown_api, h]) := by
  by_cases h1 : api_id = API_ID_A53LITE_LOAD_LIB
  · left; exact ⟨h1, by rw [dispatch, if_pos h1]⟩
  by_cases h2 : api_id = API_ID_A53LITE_GET_FUNC
  · right; left; exact ⟨h2, by rw [dispatch, if_neg h1, if_pos h2]⟩
  by_cases h3 : api_id = API_ID_A53LITE_LAUNCH_FUNC
  · right; right; left; exact ⟨h3, by rw [dispatch, if_neg h1, if_neg h2, if_pos h3]⟩
  by_cases h4 : api_id = API_ID_A53LITE_UNLOAD_LIB
  · right; right; right; left
    exact ⟨h4, by rw [dispatch, if_neg h1, if_neg h2, if_neg h3, if_pos h4, parse_unload_lib_payload]⟩
  · right; right; right; right
    exact ⟨⟨h1, h2, h3, h4⟩, by rw [dispatch, if_neg h1, if_neg h2, if_neg h3, if_neg h4]⟩

theorem dispatch_unknown_eq (data : List Byte) :
    (print_hex Label.raw_payload data (if data.length < 256 then data.length else 256)).map
        (fun h => [Out.unknown_api, h])
      = some [Out.unknown_api,
          Out.hex Label.raw_payload (data.take (min (min data.length 256) 16))
            (decide (min data.length 256 > 16)) (min data.length 256)] := by
  have hd : (if data.length < 256 then data.length else 256) = min data.length 256 := by
    split <;> omega
  rw [hd, print_hex_of_le Label.raw_payload (by omega)]
  rfl

/-- On a buffer of exactly the payload bytes, every decoder returns its lines, none of which
is the short-payload line. -/
theorem dispatch_total (api_id : Nat) (data : List Byte) :
    ∃ lines, dispatch api_id data data.length = some lines ∧
      ∀ o ∈ lines, o.is_short_payload = false := by
  rcases dispatch_cases api_id data data.length with
    ⟨_, h⟩ | ⟨_, h⟩ | ⟨_, h⟩ | ⟨_, h⟩ | ⟨_, h⟩ <;> rw [h]
  · by_cases hn : 104 ≤ data.length
    · obtain ⟨items, _, h2⟩ := @parse_load_lib_full data _ hn (le_refl _)
      refine ⟨_, h2, ?_⟩
      intro o ho
      simp only [List.mem_cons, List.mem_singleton, List.not_mem_nil, or_false] at ho
      rcases ho with rfl | rfl | rfl | rfl | rfl | rfl | rfl <;> rfl
    · refine ⟨_, @parse_load_lib_short data _ (by omega) (le_refl _), ?_⟩
      intro o ho
      split at ho <;>
        simp only [List.mem_cons, List.mem_singleton, List.not_mem_nil, or_false] at ho
      · rcases ho with rfl | rfl | rfl | rfl | rfl <;> rfl
      · rcases ho with rfl | rfl <;> rfl
  · by_cases hn : 88 ≤ data.length
    · obtain ⟨items, _, h2⟩ := @parse_get_func_full data _ hn (le_refl _)
      refine ⟨_, h2, ?_⟩
      intro o ho
      simp only [List.mem_cons, List.mem_singleton, List.not_mem_nil, or_false] at ho
      rcases ho with rfl | rfl | rfl | rfl | rfl <;> rfl
    · refine ⟨_, @parse_get_func_short data _ (by omega), ?_⟩
      intro o ho
      simp only [List.mem_cons, List.mem_singleton, List.not_mem_nil, or_false] at ho
      rcases ho with rfl | rfl <;> rfl
  · by_cases hn : 8 ≤ data.length
    · refine ⟨_, @parse_launch_full data _ hn (le_refl _), ?_⟩
      intro o ho
      by_cases a : 8 < data.length <;>
        by_cases b : data.length - 8 < declared_param_size data <;>
        simp [a, b] at ho <;>
        (try rcases ho with rfl | rfl | rfl | rfl | rfl | rfl) <;> rfl
    · refine ⟨_, @parse_launch_short data _ (by omega), ?_⟩
      intro o ho
      simp only [List.mem_cons, List.mem_singleton, List.not_mem_nil, or_false] at ho
      rcases ho with rfl | rfl <;> rfl
  · by_cases hn : 104 ≤ data.length
    · obtain ⟨items, _, h2⟩ := @parse_load_lib_full data _ hn (le_refl _)
      refine ⟨_, h2, ?_⟩
      intro o ho
      simp only [List.mem_cons, List.mem_singleton, List.not_mem_nil, or_false] at ho
      rcases ho with rfl | rfl | rfl | rfl | rfl | rfl | rfl <;> rfl
    · refine ⟨_, @parse_load_lib_short data _ (by omega) (le_refl _), ?_⟩
      intro o ho
      split at ho <;>
        simp only [List.mem_cons, List.mem_singleton, List.not_mem_nil, or_false] at ho
      · rcases ho with rfl | rfl | rfl | rfl | rfl <;> rfl
      · rcases ho with rfl | rfl <;> rfl
  · refine ⟨_, dispatch_unknown_eq data, ?_⟩
    intro o ho
    simp only [List.mem_cons, List.mem_singleton, List.not_mem_nil, or_false] at ho
    rcases ho with rfl | rfl <;> rfl


theorem header_read_full {file : List Byte} {pos : Nat}
    (h : pos + sizeof_API_HEADER ≤ file.length) :
    (fread file pos sizeof_API_HEADER).length = sizeof_API_HEADER := by
  rw [fread_length]; omega

theorem declared_at_lt (file : List Byte) (pos : Nat) : declared_at file pos < 2 ^ 32 := by
  unfold declared_at; omega

theorem payload_at_length_le (file : List Byte) (pos : Nat) :
    (payload_at file pos).length ≤ declared_at file pos := by
  unfold payload_at; rw [fread_length]; omega

/-- One iteration on a complete header that declares no payload. -/
theorem loop_body_no_payload (file : List Byte) (malloc_ok : Nat → Bool) (s : State)
    (h : s.pos + sizeof_API_HEADER ≤ file.length) (hd : declared_at file s.pos = 0) :
    loop_body file malloc_ok s
      = some (Flow.next
          { pos := s.pos + sizeof_API_HEADER
            message_count := s.message_count + 1
            total_bytes_processed := s.total_bytes_processed + sizeof_API_HEADER
            out := s.out ++ Out.msg_banner (s.message_count + 1) s.total_bytes_processed ::
              (parse_api_header (header_at file s.pos) ++
                [Out.no_payload, Out.progress (s.total_bytes_processed + sizeof_API_HEADER)]) }) := by
  have hr := header_read_full h
  have hd2 : (decode_API_HEADER (fread file s.pos sizeof_API_HEADER)).api_size * 4 % 2 ^ 32 = 0 := hd
  simp only [loop_body, hr, ne_eq, not_true_eq_false, if_false, hd2, Nat.add_zero, header_at,
    List.append_assoc, List.singleton_append, List.cons_append, List.nil_append]
  rw [if_neg (Nat.lt_irrefl 0)]

/-- One iteration on a complete header that declares a payload. -/
theorem loop_body_payload (file : List Byte) (malloc_ok : Nat → Bool) (s : State)
    (h : s.pos + sizeof_API_HEADER ≤ file.length) (hd : 0 < declared_at file s.pos)
    (hm : malloc_ok (declared_at file s.pos) = true) :
    ∃ lines,
      dispatch (header_at file s.pos).api_id (payload_at file s.pos) (payload_at file s.pos).length
        = some lines ∧
      loop_body file malloc_ok s
        = some (Flow.next
            { pos := s.pos + sizeof_API_HEADER + (payload_at file s.pos).length
              message_count := s.message_count + 1
              total_bytes_processed :=
                s.total_bytes_processed + (sizeof_API_HEADER + (payload_at file s.pos).length)
              out := s.out ++ Out.msg_banner (s.message_count + 1) s.total_bytes_processed ::
                (parse_api_header (header_at file s.pos) ++
                  ((if (payload_at file s.pos).length ≠ declared_at file s.pos then
                      [Out.short_payload (declared_at file s.pos) (payload_at file s.pos).length]
                    else []) ++
                    (lines ++
                      [Out.progress (s.total_bytes_processed +
                        (sizeof_API_HEADER + (payload_at file s.pos).length))]))) }) := by
  have hr := header_read_full h
  obtain ⟨lines, hl, _⟩ := dispatch_total (header_at file s.pos).api_id (payload_at file s.pos)
  refine ⟨lines, hl, ?_⟩
  have hlt := declared_at_lt file s.pos
  have hle := payload_at_length_le file s.pos
  have hmod : (payload_at file s.pos).length % 2 ^ 32 = (payload_at file s.pos).length :=
    Nat.mod_eq_of_lt (by omega)
  have hm2 : ¬ malloc_ok (declared_at file s.pos) = false := by simp [hm]
  have key : (if decide ((payload_at file s.pos).length ≠ declared_at file s.pos) = true
      then (payload_at file s.pos).length % 2 ^ 32 else declared_at file s.pos)
      = (payload_at file s.pos).length := by
    by_cases e : (payload_at file s.pos).length = declared_at file s.pos
    · simp [e]
    · rw [if_pos (by simpa using e)]; exact hmod
  unfold loop_body
  simp only [hr, ne_eq, not_true_eq_false, if_false]
  change (if declared_at file s.pos > 0 then _ else _) = _
  rw [if_pos hd]
  change (if malloc_ok (declared_at file s.pos) = false then _ else _) = _
  rw [if_neg hm2]
  unfold payload_at declared_at header_at at key hl
  unfold payload_at declared_at header_at
  simp only [ne_eq] at key
  simp only [key, hl]
  by_cases e : (fread file (s.pos + sizeof_API_HEADER)
      ((decode_API_HEADER (fread file s.pos sizeof_API_HEADER)).api_size * 4 % 2 ^ 32)).length
      = (decode_API_HEADER (fread file s.pos sizeof_API_HEADER)).api_size * 4 % 2 ^ 32
  · simp only [Nat.reducePow] at e ⊢
    simp [e]
  · simp only [Nat.reducePow] at e ⊢
    simp [e]


/-- One iteration on a header that is cut short: line 241 is printed and the loop is left. -/
theorem loop_body_partial_header (file : List Byte) (malloc_ok : Nat → Bool) (s : State)
    (h : file.length < s.pos + sizeof_API_HEADER) :
    loop_body file malloc_ok s
      = some (Flow.stop
          { pos := s.pos + (file.length - s.pos)
            message_count := s.message_count + 1
            total_bytes_processed := s.total_bytes_processed
            out := s.out ++ [Out.msg_banner (s.message_count + 1) s.total_bytes_processed,
              Out.header_fail sizeof_API_HEADER (file.length - s.pos)] }) := by
  have hr : (fread file s.pos sizeof_API_HEADER).length = file.length - s.pos := by
    rw [fread_length]; omega
  have hne : file.length - s.pos ≠ sizeof_API_HEADER := by
    have := sizeof_API_HEADER_eq
    omega
  simp only [loop_body, hr, hne, ne_eq, not_false_eq_true, if_true, List.append_assoc,
    List.singleton_append]

theorem fread_at_append (pre body : List Byte) (n : Nat) :
    fread (pre ++ body) pre.length n = body.take n := by
  simp [fread]

/-- What an iteration reads at the position that follows `pre`, when a complete header
`hdr` is there: the header, the declared byte count, and the payload bytes. -/
theorem read_at (pre hdr body : List Byte) (hh : hdr.length = sizeof_API_HEADER) :
    header_at (pre ++ (hdr ++ body)) pre.length = decode_API_HEADER hdr ∧
    declared_at (pre ++ (hdr ++ body)) pre.length = (decode_API_HEADER hdr).api_size * 4 % 2 ^ 32 ∧
    payload_at (pre ++ (hdr ++ body)) pre.length
      = body.take ((decode_API_HEADER hdr).api_size * 4 % 2 ^ 32) := by
  have h1 : header_at (pre ++ (hdr ++ body)) pre.length = decode_API_HEADER hdr := by
    unfold header_at
    rw [fread_at_append, ← hh, List.take_left]
  have h2 : declared_at (pre ++ (hdr ++ body)) pre.length
      = (decode_API_HEADER hdr).api_size * 4 % 2 ^ 32 := by
    unfold declared_at; rw [h1]
  refine ⟨h1, h2, ?_⟩
  unfold payload_at
  rw [h2]
  have e : pre ++ (hdr ++ body) = (pre ++ hdr) ++ body := by simp
  have l : pre.length + sizeof_API_HEADER = (pre ++ hdr).length := by simp [hh]
  rw [e, l, fread_at_append]

/-- One iteration on a message that is in the file in full. -/
theorem loop_body_msg (pre post : List Byte) (m : Msg) (malloc_ok : Nat → Bool) (s : State)
    (hf : m.framed) (hm : malloc_ok m.payload.length = true)
    (hp : s.pos = pre.length) (ht : s.total_bytes_processed = pre.length) :
    loop_body (pre ++ (m.bytes ++ post)) malloc_ok s
      = some (Flow.next
          { pos := pre.length + m.bytes.length
            message_count := s.message_count + 1
            total_bytes_processed := pre.length + m.bytes.length
            out := s.out ++ msg_lines (s.message_count + 1) pre.length m }) := by
  obtain ⟨hh, hpl⟩ := hf
  have hfile : pre ++ (m.bytes ++ post) = pre ++ (m.header ++ (m.payload ++ post)) := by
    simp [Msg.bytes]
  obtain ⟨r1, r2, r3⟩ := read_at pre m.header (m.payload ++ post) hh
  have hdecl : (decode_API_HEADER m.header).api_size * 4 % 2 ^ 32 = m.payload.length := hpl.symm
  rw [hdecl] at r2 r3
  rw [List.take_left] at r3
  have hlen : s.pos + sizeof_API_HEADER ≤ (pre ++ (m.header ++ (m.payload ++ post))).length := by
    simp only [List.length_append, hp, hh]; omega
  have hbytes : m.bytes.length = sizeof_API_HEADER + m.payload.length := by
    simp [Msg.bytes, hh]
  rw [hfile]
  by_cases h0 : m.payload.length = 0
  · rw [loop_body_no_payload _ _ _ hlen (by rw [hp, r2]; exact h0)]
    simp only [msg_lines, h0, if_true, r1, ht, hp, hbytes, Nat.add_zero, List.singleton_append]
  · obtain ⟨lines, hl, hb⟩ := loop_body_payload _ malloc_ok s hlen (by rw [hp, r2]; omega)
      (by rw [hp, r2]; exact hm)
    rw [hb]
    rw [hp, r1, r3] at hl
    have hl2 : dispatch m.api_id m.payload m.payload.length = some lines := hl
    simp only [msg_lines, h0, if_false, r1, r2, r3, ht, hp, hbytes, hl2, Option.getD_some,
      ne_eq, not_true_eq_false, List.nil_append]
    simp only [Nat.add_assoc]


theorem stream_cons (m : Msg) (ms : List Msg) : stream (m :: ms) = m.bytes ++ stream ms := by
  simp [stream]

theorem stream_nil : stream [] = [] := rfl

theorem bytes_length_of_framed {m : Msg} (hf : m.framed) :
    m.bytes.length = sizeof_API_HEADER + m.payload.length := by
  simp [Msg.bytes, hf.1]

/-- The loop reads a sequence of framed messages one iteration each, and goes on from the
position that follows them. -/
theorem parse_loop_stream (malloc_ok : Nat → Bool) (post : List Byte) (k : Nat) :
    ∀ (ms : List Msg) (pre : List Byte) (s : State),
      (∀ m ∈ ms, m.framed) → (∀ m ∈ ms, malloc_ok m.payload.length = true) →
      s.pos = pre.length → s.total_bytes_processed = pre.length →
      parse_loop (pre ++ (stream ms ++ post)) malloc_ok (ms.length + k) s
        = parse_loop (pre ++ (stream ms ++ post)) malloc_ok k
            { pos := pre.length + (stream ms).length
              message_count := s.message_count + ms.length
              total_bytes_processed := pre.length + (stream ms).length
              out := s.out ++ stream_lines s.message_count pre.length ms } := by
  intro ms
  induction ms with
  | nil =>
    intro pre s _ _ hp ht
    cases s
    simp only at hp ht
    subst hp ht
    simp [stream_nil, stream_lines]
  | cons m rest ih =>
    intro pre s hf hm hp ht
    have hfm : m.framed := hf m (List.mem_cons_self _ _)
    have hmm : malloc_ok m.payload.length = true := hm m (List.mem_cons_self _ _)
    have hb := bytes_length_of_framed hfm
    have h28 := sizeof_API_HEADER_eq
    have hfile : pre ++ (stream (m :: rest) ++ post) = pre ++ (m.bytes ++ (stream rest ++ post)) := by
      simp [stream_cons]
    have hfile2 : pre ++ (m.bytes ++ (stream rest ++ post)) = (pre ++ m.bytes) ++ (stream rest ++ post) := by
      simp
    have hfuel : (m :: rest).length + k = (rest.length + k) + 1 := by
      simp only [List.length_cons]; omega
    have hlt : s.total_bytes_processed < (pre ++ (m.bytes ++ (stream rest ++ post))).length := by
      simp only [List.length_append, ht]; omega
    rw [hfile, hfuel]
    rw [parse_loop, if_pos hlt, loop_body_msg pre (stream rest ++ post) m malloc_ok s hfm hmm hp ht]
    simp only []
    rw [hfile2]
    rw [ih (pre ++ m.bytes) _ (fun x hx => hf x (List.mem_cons_of_mem _ hx))
      (fun x hx => hm x (List.mem_cons_of_mem _ hx)) (by simp) (by simp)]
    congr 1
    simp only [List.length_append, stream_cons, List.length_cons, stream_lines, List.append_assoc,
      State.mk.injEq]
    refine ⟨by omega, by omega, by omega, trivial⟩


theorem parse_loop_done (file : List Byte) (malloc_ok : Nat → Bool) (k : Nat) (s : State)
    (h : file.length ≤ s.total_bytes_processed) :
    parse_loop file malloc_ok (k + 1) s = some s := by
  rw [parse_loop, if_neg (by omega)]

theorem parse_api_header_plain (header : API_HEADER) :
    ∀ o ∈ parse_api_header header, o.is_warning = false ∧ o.is_short_payload = false := by
  intro o ho
  simp only [parse_api_header, List.mem_cons, List.mem_singleton, List.not_mem_nil, or_false] at ho
  rcases ho with rfl | rfl | rfl | rfl | rfl | rfl | rfl <;> exact ⟨rfl, rfl⟩

/-- A payload of at least the structural minimum of its type, whose launch-function
parameter size is within the bytes present, is decoded without a warning. -/
theorem dispatch_no_warning (api_id : Nat) (data : List Byte) (lines : List Out)
    (hmin : structural_minimum api_id ≤ data.length)
    (hpar : api_id = API_ID_A53LITE_LAUNCH_FUNC → 4 + 4 < data.length →
      declared_param_size data ≤ data.length - (4 + 4))
    (h : dispatch api_id data data.length = some lines) :
    ∀ o ∈ lines, o.is_warning = false := by
  rcases dispatch_cases api_id data data.length with
    ⟨e, hd⟩ | ⟨e, hd⟩ | ⟨e, hd⟩ | ⟨e, hd⟩ | ⟨e, hd⟩ <;> rw [hd] at h
  · have hn : 104 ≤ data.length := by
      rw [e] at hmin; exact hmin
    obtain ⟨items, _, h2⟩ := @parse_load_lib_full data _ hn (le_refl _)
    rw [h2] at h
    have h := (Option.some.inj h).symm
    subst h
    intro o ho
    simp only [List.mem_cons, List.mem_singleton, List.not_mem_nil, or_false] at ho
    rcases ho with rfl | rfl | rfl | rfl | rfl | rfl | rfl <;> rfl
  · have hn : 88 ≤ data.length := by
      rw [e] at hmin; exact hmin
    obtain ⟨items, _, h2⟩ := @parse_get_func_full data _ hn (le_refl _)
    rw [h2] at h
    have h := (Option.some.inj h).symm
    subst h
    intro o ho
    simp only [List.mem_cons, List.mem_singleton, List.not_mem_nil, or_false] at ho
    rcases ho with rfl | rfl | rfl | rfl | rfl <;> rfl
  · have hn : 8 ≤ data.length := by
      rw [e] at hmin; exact hmin
    rw [@parse_launch_full data _ hn (le_refl _)] at h
    have h := (Option.some.inj h).symm
    subst h
    have hp := hpar e
    intro o ho
    by_cases a : 8 < data.length
    · have b : ¬ data.length - 8 < declared_param_size data := by
        have := hp (by omega); omega
      simp [a, b] at ho
      rcases ho with rfl | rfl | rfl | rfl | rfl <;> rfl
    · simp [a] at ho
      rcases ho with rfl | rfl | rfl | rfl <;> rfl
  · have hn : 104 ≤ data.length := by
      rw [e] at hmin; exact hmin
    obtain ⟨items, _, h2⟩ := @parse_load_lib_full data _ hn (le_refl _)
    rw [h2] at h
    have h := (Option.some.inj h).symm
    subst h
    intro o ho
    simp only [List.mem_cons, List.mem_singleton, List.not_mem_nil, or_false] at ho
    rcases ho with rfl | rfl | rfl | rfl | rfl | rfl | rfl <;> rfl
  · rw [dispatch_unknown_eq] at h
    have h := (Option.some.inj h).symm
    subst h
    intro o ho
    simp only [List.mem_cons, List.mem_singleton, List.not_mem_nil, or_false] at ho
    rcases ho with rfl | rfl <;> rfl

theorem msg_lines_no_short (count offset : Nat) (m : Msg) :
    ∀ o ∈ msg_lines count offset m, o.is_short_payload = false := by
  intro o ho
  obtain ⟨lines, hl, hs⟩ := dispatch_total m.api_id m.payload
  simp only [msg_lines, hl, Option.getD_some, List.mem_cons, List.mem_append, List.mem_singleton,
    List.not_mem_nil, or_false] at ho
  rcases ho with rfl | ho | ho | rfl
  · rfl
  · exact (parse_api_header_plain _ o ho).2
  · split at ho
    · simp only [List.mem_singleton] at ho; subst ho; rfl
    · exact hs o ho
  · rfl

theorem msg_lines_no_warning (count offset : Nat) (m : Msg) (hc : m.consistent) :
    ∀ o ∈ msg_lines count offset m, o.is_warning = false := by
  intro o ho
  obtain ⟨lines, hl, _⟩ := dispatch_total m.api_id m.payload
  have hw := dispatch_no_warning m.api_id m.payload lines hc.1.2 hc.2 hl
  simp only [msg_lines, hl, Option.getD_some, List.mem_cons, List.mem_append, List.mem_singleton,
    List.not_mem_nil, or_false] at ho
  rcases ho with rfl | ho | ho | rfl
  · rfl
  · exact (parse_api_header_plain _ o ho).1
  · split at ho
    · simp only [List.mem_singleton] at ho; subst ho; rfl
    · exact hw o ho
  · rfl

theorem stream_lines_no_short (ms : List Msg) :
    ∀ (count offset : Nat), ∀ o ∈ stream_lines count offset ms, o.is_short_payload = false := by
  induction ms with
  | nil => intro _ _ o ho; simp [stream_lines] at ho
  | cons m rest ih =>
    intro count offset o ho
    simp only [stream_lines, List.mem_append] at ho
    rcases ho with ho | ho
    · exact msg_lines_no_short _ _ m o ho
    · exact ih _ _ o ho

theorem stream_lines_no_warning (ms : List Msg) (hc : ∀ m ∈ ms, m.consistent) :
    ∀ (count offset : Nat), ∀ o ∈ stream_lines count offset ms, o.is_warning = false := by
  induction ms with
  | nil => intro _ _ o ho; simp [stream_lines] at ho
  | cons m rest ih =>
    intro count offset o ho
    simp only [stream_lines, List.mem_append] at ho
    rcases ho with ho | ho
    · exact msg_lines_no_warning _ _ m (hc m (List.mem_cons_self _ _)) o ho
    · exact ih (fun x hx => hc x (List.mem_cons_of_mem _ hx)) _ _ o ho

/-- The run of the whole function on a sequence of framed messages. -/
theorem parse_binary_file_stream (ms : List Msg) (malloc_ok : Nat → Bool) (fuel : Nat)
    (hf : ∀ m ∈ ms, m.framed) (hm : ∀ m ∈ ms, malloc_ok m.payload.length = true)
    (hfuel : ms.length < fuel) :
    parse_binary_file (stream ms) malloc_ok fuel
      = some
          { pos := (stream ms).length
            message_count := ms.length
            total_bytes_processed := (stream ms).length
            out := Out.start (stream ms).length ::
              (stream_lines 0 0 ms ++
                [Out.summary ms.length (stream ms).length (stream ms).length]) } := by
  obtain ⟨k, rfl⟩ : ∃ k, fuel = ms.length + (k + 1) := ⟨fuel - ms.length - 1, by omega⟩
  have h := parse_loop_stream malloc_ok [] (k + 1) ms [] (initial_state (stream ms)) hf hm rfl rfl
  simp only [List.nil_append, List.append_nil, List.length_nil, Nat.zero_add] at h
  rw [parse_binary_file, h, parse_loop_done _ _ _ _ (by simp)]
  simp [initial_state]

/-! ## Lemmas on the loop -/

theorem loop_body_alloc_fail (file : List Byte) (malloc_ok : Nat → Bool) (s : State)
    (h : s.pos + sizeof_API_HEADER ≤ file.length) (hd : 0 < declared_at file s.pos)
    (hm : malloc_ok (declared_at file s.pos) = false) :
    ∃ s', loop_body file malloc_ok s = some (Flow.stop s') := by
  have hr := header_read_full h
  unfold loop_body
  simp only [hr, ne_eq, not_true_eq_false, if_false]
  change ∃ s', (if declared_at file s.pos > 0 then _ else _) = _
  rw [if_pos hd]
  change ∃ s', (if malloc_ok (declared_at file s.pos) = false then _ else _) = _
  rw [if_pos hm]
  exact ⟨_, rfl⟩

theorem payload_read_of_eq (file : List Byte) (s : State) :
    payload_read_of file s = (payload_at file s.pos).length := by
  have h : payload_read_of file s
      = if declared_at file s.pos > 0 then (payload_at file s.pos).length else 0 := rfl
  rw [h]
  split
  · rfl
  · have := payload_at_length_le file s.pos
    omega

/-- An iteration that runs to the end of the body advances the file position and
total_bytes_processed by the header size plus the payload bytes read. -/
theorem loop_body_next (file : List Byte) (malloc_ok : Nat → Bool) (s s' : State)
    (h : loop_body file malloc_ok s = some (Flow.next s')) :
    s'.pos = s.pos + (sizeof_API_HEADER + payload_read_of file s) ∧
    s'.total_bytes_processed
      = s.total_bytes_processed + (sizeof_API_HEADER + payload_read_of file s) ∧
    s'.message_count = s.message_count + 1 := by
  rw [payload_read_of_eq]
  by_cases hh : s.pos + sizeof_API_HEADER ≤ file.length
  · by_cases hd : declared_at file s.pos = 0
    · rw [loop_body_no_payload file malloc_ok s hh hd] at h
      have h := Flow.next.inj (Option.some.inj h)
      have hp : (payload_at file s.pos).length = 0 := by
        have := payload_at_length_le file s.pos
        omega
      rw [← h, hp]
      exact ⟨rfl, rfl, rfl⟩
    · by_cases hm : malloc_ok (declared_at file s.pos) = true
      · obtain ⟨lines, _, hb⟩ := loop_body_payload file malloc_ok s hh (by omega) hm
        rw [hb] at h
        have h := Flow.next.inj (Option.some.inj h)
        rw [← h]
        exact ⟨by simp only [Nat.add_assoc], rfl, rfl⟩
      · obtain ⟨s'', hb⟩ := loop_body_alloc_fail file malloc_ok s hh (by omega) (by simpa using hm)
        rw [hb] at h
        cases h
  · rw [loop_body_partial_header file malloc_ok s (by omega)] at h
    cases h

theorem completed_succ (file : List Byte) (malloc_ok : Nat → Bool) (k : Nat) (s' : State)
    (h : completed file malloc_ok (k + 1) = some s') :
    ∃ s, completed file malloc_ok k = some s ∧ s.total_bytes_processed < file.length ∧
      loop_body file malloc_ok s = some (Flow.next s') := by
  rw [completed] at h
  cases hk : completed file malloc_ok k with
  | none => rw [hk] at h; cases h
  | some s =>
    rw [hk] at h
    simp only [] at h
    by_cases hlt : s.total_bytes_processed < file.length
    · rw [if_pos hlt] at h
      refine ⟨s, rfl, hlt, ?_⟩
      cases hb : loop_body file malloc_ok s with
      | none => rw [hb] at h; cases h
      | some fl =>
        rw [hb] at h
        cases fl with
        | next t => simp only [Option.some.injEq] at h; rw [h]
        | stop t => cases h
    · rw [if_neg hlt] at h; cases h

/-- The states `completed` lists are those the loop goes through. -/
theorem parse_loop_completed (file : List Byte) (malloc_ok : Nat → Bool) :
    ∀ (k f : Nat) (s : State), completed file malloc_ok k = some s →
      parse_loop file malloc_ok (k + f) (initial_state file) = parse_loop file malloc_ok f s := by
  intro k
  induction k with
  | zero =>
    intro f s h
    simp only [completed, Option.some.injEq] at h
    rw [← h, Nat.zero_add]
  | succ k ih =>
    intro f s' h
    obtain ⟨s, hk, hlt, hb⟩ := completed_succ file malloc_ok k s' h
    have e : k + 1 + f = k + (f + 1) := by omega
    rw [e, ih (f + 1) s hk, parse_loop, if_pos hlt, hb]

/-- One iteration on a message whose payload is cut to its first `j` bytes at the end of the
file. -/
theorem loop_body_truncated (pre : List Byte) (m : Msg) (j : Nat) (malloc_ok : Nat → Bool)
    (s : State) (hf : m.framed) (hj : j < m.payload.length)
    (hm : malloc_ok m.payload.length = true)
    (hp : s.pos = pre.length) (ht : s.total_bytes_processed = pre.length) :
    ∃ lines,
      loop_body (pre ++ (m.header ++ m.payload.take j)) malloc_ok s
        = some (Flow.next
            { pos := pre.length + (sizeof_API_HEADER + j)
              message_count := s.message_count + 1
              total_bytes_processed := pre.length + (sizeof_API_HEADER + j)
              out := s.out ++ Out.msg_banner (s.message_count + 1) pre.length ::
                (parse_api_header (decode_API_HEADER m.header) ++
                  (Out.short_payload m.payload.length j ::
                    (lines ++ [Out.progress (pre.length + (sizeof_API_HEADER + j))]))) }) := by
  obtain ⟨hh, hpl⟩ := hf
  obtain ⟨r1, r2, r3⟩ := read_at pre m.header (m.payload.take j) hh
  have hdecl : (decode_API_HEADER m.header).api_size * 4 % 2 ^ 32 = m.payload.length := hpl.symm
  have hjl : (m.payload.take j).length = j := by
    rw [List.length_take]; omega
  have e : (m.payload.take j).take m.payload.length = m.payload.take j :=
    List.take_of_length_le (by omega)
  rw [hdecl] at r2 r3
  rw [e] at r3
  have hlen : s.pos + sizeof_API_HEADER ≤ (pre ++ (m.header ++ m.payload.take j)).length := by
    simp only [List.length_append, hp, hh]; omega
  obtain ⟨lines, _, hb⟩ := loop_body_payload _ malloc_ok s hlen (by rw [hp, r2]; omega)
    (by rw [hp, r2]; exact hm)
  refine ⟨lines, ?_⟩
  rw [hb]
  have hne : j ≠ m.payload.length := by omega
  simp only [hp, ht, r1, r2, r3, hjl, hne, ne_eq, not_false_eq_true, if_true, Nat.add_assoc,
    List.singleton_append]

theorem stream_append_singleton (ms : List Msg) (m : Msg) :
    stream (ms ++ [m]) = stream ms ++ (m.header ++ m.payload) := by
  simp [stream, Msg.bytes]

/-- The run on a stream whose last payload is cut to its first `j` bytes. -/
theorem parse_binary_file_truncated (ms : List Msg) (last : Msg) (j : Nat)
    (malloc_ok : Nat → Bool) (fuel : Nat)
    (hf : ∀ m ∈ ms, m.framed) (hm : ∀ m ∈ ms, malloc_ok m.payload.length = true)
    (hfl : last.framed) (hml : malloc_ok last.payload.length = true)
    (hj : j < last.payload.length) (hfuel : ms.length + 1 < fuel) :
    ∃ l2, Out.short_payload last.payload.length j ∈ l2 ∧
      parse_binary_file (stream ms ++ (last.header ++ last.payload.take j)) malloc_ok fuel
        = some
            { pos := (stream ms).length + (sizeof_API_HEADER + j)
              message_count := ms.length + 1
              total_bytes_processed := (stream ms).length + (sizeof_API_HEADER + j)
              out := (Out.start ((stream ms).length + (sizeof_API_HEADER + j)) ::
                  stream_lines 0 0 ms) ++
                Out.msg_banner (ms.length + 1) (stream ms).length :: l2 } := by
  obtain ⟨k, rfl⟩ : ∃ k, fuel = ms.length + (k + 1 + 1) := ⟨fuel - ms.length - 2, by omega⟩
  have hlenfile : (stream ms ++ (last.header ++ last.payload.take j)).length
      = (stream ms).length + (sizeof_API_HEADER + j) := by
    simp only [List.length_append, hfl.1, List.length_take]; omega
  have h : parse_loop (stream ms ++ (last.header ++ last.payload.take j)) malloc_ok
      (ms.length + (k + 1 + 1)) (initial_state (stream ms ++ (last.header ++ last.payload.take j)))
      = parse_loop (stream ms ++ (last.header ++ last.payload.take j)) malloc_ok (k + 1 + 1)
          { pos := (stream ms).length
            message_count := ms.length
            total_bytes_processed := (stream ms).length
            out := Out.start ((stream ms).length + (sizeof_API_HEADER + j)) ::
              stream_lines 0 0 ms } := by
    have := parse_loop_stream malloc_ok (last.header ++ last.payload.take j) (k + 1 + 1) ms []
      (initial_state (stream ms ++ (last.header ++ last.payload.take j))) hf hm rfl rfl
    simpa [initial_state, hlenfile] using this
  obtain ⟨lines, hb⟩ := loop_body_truncated (stream ms) last j malloc_ok
    { pos := (stream ms).length
      message_count := ms.length
      total_bytes_processed := (stream ms).length
      out := Out.start ((stream ms).length + (sizeof_API_HEADER + j)) ::
        stream_lines 0 0 ms } hfl hj hml rfl rfl
  refine ⟨parse_api_header (decode_API_HEADER last.header) ++
      (Out.short_payload last.payload.length j ::
        (lines ++ [Out.progress ((stream ms).length + (sizeof_API_HEADER + j)),
          Out.summary (ms.length + 1) ((stream ms).length + (sizeof_API_HEADER + j))
            ((stream ms).length + (sizeof_API_HEADER + j))])), by simp, ?_⟩
  rw [parse_binary_file, h]
  have hlt : (stream ms).length < (stream ms ++ (last.header ++ last.payload.take j)).length := by
    rw [hlenfile]; have := sizeof_API_HEADER_eq; omega
  rw [parse_loop, if_pos hlt, hb]
  simp only []
  rw [parse_loop_done _ _ _ _ (by rw [hlenfile])]
  simp [hlenfile]

theorem stream_take_last (ms : List Msg) (last : Msg) (K : Nat) (hK : K ≤ last.payload.length) :
    (stream (ms ++ [last])).take ((stream (ms ++ [last])).length - K)
      = stream ms ++ (last.header ++ last.payload.take (last.payload.length - K)) := by
  rw [stream_append_singleton]
  have e1 : (stream ms ++ (last.header ++ last.payload)).length - K
      = (stream ms).length + (last.header.length + (last.payload.length - K)) := by
    simp only [List.length_append]; omega
  rw [e1, List.take_append, List.take_append]

/-- The run on a sequence of framed messages followed by a header that is cut short. -/
theorem parse_binary_file_partial_header (ms : List Msg) (tail : List Byte)
    (malloc_ok : Nat → Bool) (fuel : Nat)
    (hf : ∀ m ∈ ms, m.framed) (hm : ∀ m ∈ ms, malloc_ok m.payload.length = true)
    (h0 : 0 < tail.length) (h1 : tail.length < sizeof_API_HEADER) (hfuel : ms.length < fuel) :
    parse_binary_file (stream ms ++ tail) malloc_ok fuel
      = some
          { pos := (stream ms).length + tail.length
            message_count := ms.length + 1
            total_bytes_processed := (stream ms).length
            out := Out.start ((stream ms).length + tail.length) ::
              (stream_lines 0 0 ms ++
                [Out.msg_banner (ms.length + 1) (stream ms).length,
                 Out.header_fail sizeof_API_HEADER tail.length,
                 Out.summary (ms.length + 1) (stream ms).length
                   ((stream ms).length + tail.length)]) } := by
  obtain ⟨k, rfl⟩ : ∃ k, fuel = ms.length + (k + 1) := ⟨fuel - ms.length - 1, by omega⟩
  have hlen : (stream ms ++ tail).length = (stream ms).length + tail.length := by simp
  have h : parse_loop (stream ms ++ tail) malloc_ok (ms.length + (k + 1))
      (initial_state (stream ms ++ tail))
      = parse_loop (stream ms ++ tail) malloc_ok (k + 1)
          { pos := (stream ms).length
            message_count := ms.length
            total_bytes_processed := (stream ms).length
            out := Out.start ((stream ms).length + tail.length) :: stream_lines 0 0 ms } := by
    have := parse_loop_stream malloc_ok tail (k + 1) ms []
      (initial_state (stream ms ++ tail)) hf hm rfl rfl
    simpa [initial_state] using this
  rw [parse_binary_file, h, parse_loop, if_pos (by rw [hlen]; exact Nat.lt_add_of_pos_right h0),
    loop_body_partial_header _ _ _ (by rw [hlen]; exact Nat.add_lt_add_left h1 _)]
  simp [hlen]

/-- The run on N-1 framed messages followed by the first 10 bytes of a header: the lines of
the N-1 messages are those of the run without the 10 bytes, then the banner of message N
and the header failure are printed, and the message count at the end is N, not N-1. -/
theorem truncated_header_run (ms : List Msg) (tail : List Byte) (malloc_ok : Nat → Bool)
    (fuel : Nat) (hf : ∀ m ∈ ms, m.framed) (hm : ∀ m ∈ ms, malloc_ok m.payload.length = true)
    (ht : tail.length = 10) (hfuel : ms.length < fuel) :
    ∃ body,
      parse_binary_file (stream ms) malloc_ok fuel
        = some
            { pos := (stream ms).length
              message_count := ms.length
              total_bytes_processed := (stream ms).length
              out := Out.start (stream ms).length ::
                (body ++ [Out.summary ms.length (stream ms).length (stream ms).length]) } ∧
      parse_binary_file (stream ms ++ tail) malloc_ok fuel
        = some
            { pos := (stream ms).length + 10
              message_count := ms.length + 1
              total_bytes_processed := (stream ms).length
              out := Out.start ((stream ms).length + 10) ::
                (body ++
                  [Out.msg_banner (ms.length + 1) (stream ms).length,
                   Out.header_fail 28 10,
                   Out.summary (ms.length + 1) (stream ms).length ((stream ms).length + 10)]) } := by
  refine ⟨stream_lines 0 0 ms, parse_binary_file_stream ms malloc_ok fuel hf hm hfuel, ?_⟩
  have h := parse_binary_file_partial_header ms tail malloc_ok fuel hf hm (by omega)
    (by rw [ht, sizeof_API_HEADER_eq]; omega) hfuel
  rw [ht, sizeof_API_HEADER_eq] at h
  exact h

theorem length_eight {α : Type} (l : List α) (h : l.length = 8) :
    ∃ a b c d e f g i, l = [a, b, c, d, e, f, g, i] := by
  match l, h with
  | [a, b, c, d, e, f, g, i], _ => exact ⟨a, b, c, d, e, f, g, i, rfl⟩

/-! ## C1 to C6: the stream decoder -/

/-- C2: after every iteration of the loop of parse_binary_file that runs to the end of the
body, total_bytes_processed is the sum over the iterations so far of the header size plus
the payload bytes the fread of that iteration returned (not the declared count), and it is
the read position of the file. -/
theorem cursor_invariant (file : List Byte) (malloc_ok : Nat → Bool) (k : Nat) (s : State)
    (h : completed file malloc_ok k = some s) :
    s.total_bytes_processed = consumed file malloc_ok k ∧ s.total_bytes_processed = s.pos := by
  induction k generalizing s with
  | zero =>
    simp only [completed, Option.some.injEq] at h
    rw [← h]
    exact ⟨rfl, rfl⟩
  | succ k ih =>
    obtain ⟨s0, hk, _, hb⟩ := completed_succ file malloc_ok k s h
    obtain ⟨i1, i2⟩ := ih s0 hk
    obtain ⟨n1, n2, _⟩ := loop_body_next file malloc_ok s0 s hb
    refine ⟨?_, ?_⟩
    · rw [consumed, hk, n2, i1]
    · rw [n1, n2, i2]

set_option maxRecDepth 100000 in
/-- Witness of C2: a Load-Library message that declares 108 payload bytes in a file that
holds 50 of them; after the iteration the total is 28 + 50 = 78. -/
theorem cursor_invariant_witness :
    ∃ s, completed (scenario_header sample_handle ++ sample_load_lib_payload.take 50)
        (fun _ => true) 1 = some s ∧
      s.total_bytes_processed
        = consumed (scenario_header sample_handle ++ sample_load_lib_payload.take 50)
            (fun _ => true) 1 ∧
      s.total_bytes_processed = s.pos ∧ s.total_bytes_processed = 78 ∧
      declared_at (scenario_header sample_handle ++ sample_load_lib_payload.take 50) 0 = 108 := by
  have hs : (completed (scenario_header sample_handle ++ sample_load_lib_payload.take 50)
      (fun _ => true) 1).isSome = true := by decide
  obtain ⟨s, hs⟩ := Option.isSome_iff_exists.mp hs
  have ht : (completed (scenario_header sample_handle ++ sample_load_lib_payload.take 50)
      (fun _ => true) 1).map State.total_bytes_processed = some 78 := by decide
  rw [hs] at ht
  obtain ⟨h1, h2⟩ := cursor_invariant _ _ 1 s hs
  exact ⟨s, hs, h1, h2, by simpa using ht, by decide⟩

/-- The streams on which the statement of C3 holds on the code: for every stream of N >= 1
messages, each framed with the 32-bit byte count the decoder computes (which is
payload_words * 4 for word counts below 2^30), cut short by K bytes with
0 < K < the length of the last payload, parse_binary_file reports N messages, prints the
short-payload line after the banner of message N and not before it, and ends with
total_bytes_processed equal to the file size. -/
theorem truncated_final_payload (msgs : List Msg) (hne : msgs ≠ []) (K : Nat)
    (malloc_ok : Nat → Bool) (fuel : Nat)
    (hw : ∀ m ∈ msgs, m.well_formed) (hm : ∀ m ∈ msgs, malloc_ok m.payload.length = true)
    (hK : 0 < K) (hKL : K < (msgs.getLast hne).payload.length) (hfuel : msgs.length < fuel) :
    ∃ s l1 l2,
      parse_binary_file ((stream msgs).take ((stream msgs).length - K)) malloc_ok fuel = some s ∧
      s.message_count = msgs.length ∧
      s.total_bytes_processed = ((stream msgs).take ((stream msgs).length - K)).length ∧
      s.out = l1 ++ Out.msg_banner msgs.length (stream msgs.dropLast).length :: l2 ∧
      (∀ o ∈ l1, o.is_short_payload = false) ∧
      Out.short_payload (msgs.getLast hne).payload.length
        ((msgs.getLast hne).payload.length - K) ∈ l2 := by
  have hsplit : msgs.dropLast ++ [msgs.getLast hne] = msgs := List.dropLast_append_getLast hne
  generalize hms : msgs.dropLast = ms at hsplit
  generalize hlast : msgs.getLast hne = last at hsplit hKL
  subst hsplit
  have hwl : last.well_formed := hw last (by simp)
  have hf : ∀ m ∈ ms, m.framed := fun m h => (hw m (by simp [h])).1
  have hm1 : ∀ m ∈ ms, malloc_ok m.payload.length = true := fun m h => hm m (by simp [h])
  have hml : malloc_ok last.payload.length = true := hm last (by simp)
  have hfuel2 : ms.length + 1 < fuel := by simpa using hfuel
  obtain ⟨l2, hin, hrun⟩ := parse_binary_file_truncated ms last (last.payload.length - K)
    malloc_ok fuel hf hm1 hwl.1 hml (by omega) hfuel2
  rw [stream_take_last ms last K (by omega)]
  refine ⟨_, Out.start ((stream ms).length + (sizeof_API_HEADER + (last.payload.length - K))) ::
    stream_lines 0 0 ms, l2, hrun, by simp, ?_, ?_, ?_, hin⟩
  · simp only [List.length_append, hwl.1.1, List.length_take]; omega
  · simp
  · intro o ho
    simp only [List.mem_cons] at ho
    rcases ho with rfl | ho
    · rfl
    · exact stream_lines_no_short ms 0 0 o ho

set_option maxRecDepth 100000 in
/-- An instance of the statement above: two Load-Library messages, the second cut short by
58 of its 108 payload bytes. -/
theorem truncated_final_payload_witness :
    ∃ s l1 l2,
      parse_binary_file
        ((stream [sample_load_lib_msg, sample_load_lib_msg]).take
          ((stream [sample_load_lib_msg, sample_load_lib_msg]).length - 58))
        (fun _ => true) 3 = some s ∧
      s.message_count = 2 ∧
      s.total_bytes_processed = 214 ∧
      s.out = l1 ++ Out.msg_banner 2 136 :: l2 ∧
      (∀ o ∈ l1, o.is_short_payload = false) ∧
      Out.short_payload 108 50 ∈ l2 := by
  obtain ⟨s, l1, l2, h1, h2, h3, h4, h5, h6⟩ :=
    truncated_final_payload [sample_load_lib_msg, sample_load_lib_msg] (by decide) 58
      (fun _ => true) 3 (by decide) (fun _ _ => rfl) (by decide) (by decide) (by decide)
  have e1 : ((stream [sample_load_lib_msg, sample_load_lib_msg]).take
      ((stream [sample_load_lib_msg, sample_load_lib_msg]).length - 58)).length = 214 := by
    decide
  have e2 : (stream [sample_load_lib_msg, sample_load_lib_msg].dropLast).length = 136 := by
    decide
  rw [e1] at h3
  rw [e2] at h4
  exact ⟨s, l1, l2, h1, h2, h3, h4, h5, h6⟩

theorem sample_wrap_msg_payload_length : sample_wrap_msg.payload.length = 2 ^ 32 := by
  simp only [sample_wrap_msg, List.length_replicate]

theorem sample_wrap_msg_cut :
    (stream [sample_wrap_msg]).take ((stream [sample_wrap_msg]).length - (2 ^ 32 - 1))
      = sample_wrap_header ++ [0] := by
  have hs : stream [sample_wrap_msg] = sample_wrap_header ++ List.replicate (2 ^ 32) 0 := by
    simp only [stream, List.map_cons, List.map_nil, List.flatten_cons, List.flatten_nil,
      List.append_nil, Msg.bytes, sample_wrap_msg]
  have hh : sample_wrap_header.length = 28 := by decide
  have hl : (sample_wrap_header ++ List.replicate (2 ^ 32) (0 : Byte)).length - (2 ^ 32 - 1)
      = sample_wrap_header.length + 1 := by
    rw [List.length_append, List.length_replicate, hh]
    norm_num
  have ht : (List.replicate (2 ^ 32) (0 : Byte)).take 1 = [0] := by
    rw [List.take_replicate]
    rfl
  rw [hs, hl, List.take_append, ht]

set_option maxRecDepth 100000 in
/-- C3 at a concrete input: the message of unknown type whose header declares 0x40000000
payload words is well-formed with its 2^32 payload bytes; cut by K = 2^32 - 1 bytes
(0 < K < 2^32) the stream is the header and one payload byte. On this file of 29 bytes the
decoder takes the payload as absent (the byte count of line 250 wraps to 0), prints no
short-payload line, reads the payload byte as the header of a second message, reports 2
messages and ends with total_bytes_processed = 28, where the claim has 1 message, flagged
short, and a total of 29. -/
theorem truncated_wrap_payload_run :
    sample_wrap_msg.well_formed_exact ∧
    0 < 2 ^ 32 - 1 ∧ 2 ^ 32 - 1 < sample_wrap_msg.payload.length ∧
    (stream [sample_wrap_msg]).take ((stream [sample_wrap_msg]).length - (2 ^ 32 - 1))
      = sample_wrap_header ++ [0] ∧
    (parse_binary_file (sample_wrap_header ++ [0]) (fun _ => true) 3).map
        (fun s => (s.message_count, s.total_bytes_processed,
          s.out.filter (fun o => o.is_warning || o.is_short_payload)))
      = some (2, 28, [Out.header_fail 28 1]) ∧
    (sample_wrap_header ++ [0]).length = 29 := by
  refine ⟨⟨by decide, ?_, ?_⟩, by norm_num, ?_, sample_wrap_msg_cut, by decide, by decide⟩
  · rw [sample_wrap_msg_payload_length]
    have : sample_wrap_msg.api_size = 2 ^ 30 := by decide
    rw [this]
    norm_num
  · have : structural_minimum sample_wrap_msg.api_id = 0 := by decide
    rw [this]
    exact Nat.zero_le _
  · rw [sample_wrap_msg_payload_length]
    norm_num

set_option maxRecDepth 100000 in
/-- C4 at a concrete input: one Load-Library message followed by 10 bytes (N = 2). The
message is decoded without a warning from its decoder, the header failure is printed, and
message_count at the end is 2, where the claim has N - 1 = 1. -/
theorem truncated_header_count :
    (parse_binary_file (stream [sample_load_lib_msg] ++ List.replicate 10 0) (fun _ => true) 3).map
        (fun s => (s.message_count, s.total_bytes_processed, s.out.filter Out.is_warning))
      = some (2, 136, [Out.header_fail 28 10]) := by
  decide

set_option maxRecDepth 100000 in
/-- C5, as the claim states it, fails: a file of 24 bytes is not a complete header (the read
of the header fails with 24 of 28 bytes), and on a file of 28 zero bytes, a header that
declares no payload, the position and the total advance by 28, not by 24 + 0. -/
theorem header_size_counterexample :
    (parse_binary_file (List.replicate 24 0) (fun _ => true) 2).map State.out
      = some [Out.start 24, Out.msg_banner 1 0, Out.header_fail 28 24, Out.summary 1 0 24] ∧
    (parse_binary_file (List.replicate 28 0) (fun _ => true) 2).map
        (fun s => (s.message_count, s.pos, s.total_bytes_processed))
      = some (1, 28, 28) := by
  decide

/-- C5, amended: the message header is 28 bytes (4 + 4 + 8 + 4 + 4 + 4). In every iteration
that finds 28 bytes at the read position, the header is decoded from these 28 bytes, the
payload handed to the decoder is made of the bytes that start at byte 28 of the message (as
many as declared, or as are left), and the read position and total_bytes_processed advance
by 28 + the number of payload bytes read. -/
theorem header_is_28_bytes (file : List Byte) (malloc_ok : Nat → Bool) (s : State)
    (h : s.pos + 28 ≤ file.length)
    (hm : 0 < declared_at file s.pos → malloc_ok (declared_at file s.pos) = true) :
    sizeof_API_HEADER = 28 ∧
    header_at file s.pos = decode_API_HEADER ((file.drop s.pos).take 28) ∧
    payload_at file s.pos = (file.drop (s.pos + 28)).take (declared_at file s.pos) ∧
    ∃ s', loop_body file malloc_ok s = some (Flow.next s') ∧
      s'.pos = s.pos + (28 + (payload_at file s.pos).length) ∧
      s'.total_bytes_processed
        = s.total_bytes_processed + (28 + (payload_at file s.pos).length) ∧
      (0 < declared_at file s.pos →
        ∃ lines,
          dispatch (header_at file s.pos).api_id (payload_at file s.pos)
            (payload_at file s.pos).length = some lines ∧
          ∀ o ∈ lines, o ∈ s'.out) := by
  refine ⟨rfl, rfl, rfl, ?_⟩
  have h2 : s.pos + sizeof_API_HEADER ≤ file.length := by rw [sizeof_API_HEADER_eq]; exact h
  by_cases hd : declared_at file s.pos = 0
  · have hp : (payload_at file s.pos).length = 0 := by
      have := payload_at_length_le file s.pos
      omega
    refine ⟨_, loop_body_no_payload file malloc_ok s h2 hd, ?_, ?_, ?_⟩
    · rw [hp, sizeof_API_HEADER_eq]
    · rw [hp, sizeof_API_HEADER_eq]
    · intro hpos; omega
  · obtain ⟨lines, hl, hb⟩ := loop_body_payload file malloc_ok s h2 (by omega) (hm (by omega))
    refine ⟨_, hb, ?_, ?_, ?_⟩
    · simp only [sizeof_API_HEADER_eq, Nat.add_assoc]
    · simp only [sizeof_API_HEADER_eq]
    · intro _
      refine ⟨lines, hl, ?_⟩
      intro o ho
      simp [ho]

set_option maxRecDepth 100000 in
/-- Witness of C5 amended: the first iteration on the Load-Library scenario. -/
theorem header_is_28_bytes_witness :
    sizeof_API_HEADER = 28 ∧
    header_at (stream [sample_load_lib_msg]) 0
      = decode_API_HEADER (((stream [sample_load_lib_msg]).drop 0).take 28) ∧
    payload_at (stream [sample_load_lib_msg]) 0
      = ((stream [sample_load_lib_msg]).drop (0 + 28)).take
          (declared_at (stream [sample_load_lib_msg]) 0) ∧
    ∃ s', loop_body (stream [sample_load_lib_msg]) (fun _ => true)
        (initial_state (stream [sample_load_lib_msg])) = some (Flow.next s') ∧
      s'.pos = 0 + (28 + (payload_at (stream [sample_load_lib_msg]) 0).length) ∧
      s'.total_bytes_processed = 0 + (28 + (payload_at (stream [sample_load_lib_msg]) 0).length) ∧
      (0 < declared_at (stream [sample_load_lib_msg]) 0 →
        ∃ lines,
          dispatch (header_at (stream [sample_load_lib_msg]) 0).api_id
            (payload_at (stream [sample_load_lib_msg]) 0)
            (payload_at (stream [sample_load_lib_msg]) 0).length = some lines ∧
          ∀ o ∈ lines, o ∈ s'.out) :=
  header_is_28_bytes (stream [sample_load_lib_msg]) (fun _ => true)
    (initial_state (stream [sample_load_lib_msg])) (by decide) (fun _ => rfl)

set_option maxRecDepth 100000 in
/-- C6, as the claim states it, fails: on the scenario (the header with a handle, then 108
payload bytes) total_bytes_processed ends at 136 = 28 + 108, not at 132. -/
theorem load_lib_scenario_counterexample :
    (parse_binary_file (scenario_header sample_handle ++ sample_load_lib_payload)
        (fun _ => true) 2).map
        (fun s => (s.message_count, s.total_bytes_processed, s.out.filter Out.is_warning))
      = some (1, 136, []) ∧ (136 : Nat) ≠ 132 := by
  decide

/-- C6, amended: the header bytes 01 00 00 90, 1B 00 00 00, an 8-byte handle, seq = 1, dur = 0,
result = 0 followed by exactly 108 payload bytes decode to exactly one message, with the six
Load-Library fields printed from their offsets in the payload and no warning, and
total_bytes_processed = 136. -/
theorem load_lib_scenario (handle payload : List Byte) (malloc_ok : Nat → Bool) (fuel : Nat)
    (hh : handle.length = 8) (hp : payload.length = 108) (hm : malloc_ok 108 = true)
    (hfuel : 1 < fuel) :
    ∃ items, print_string_loop ((payload.drop 20).take 64) 64 = some items ∧
      parse_binary_file (scenario_header handle ++ payload) malloc_ok fuel
        = some
            { pos := 136
              message_count := 1
              total_bytes_processed := 136
              out := [Out.start 136, Out.msg_banner 1 0, Out.hdr_banner,
                Out.hdr_api_id 0x90000001 "A53LITE_LOAD_LIB", Out.hdr_api_size 27 108,
                Out.hdr_handle (le_value handle), Out.hdr_seq 1, Out.hdr_duration 0,
                Out.hdr_result 0, Out.load_lib_banner,
                Out.library_path (le_value (payload.take 8)),
                Out.library_addr (le_value ((payload.drop 8).take 8)),
                Out.lib_size (le_value ((payload.drop 16).take 4)),
                Out.str Label.lib_name items,
                Out.hex Label.md5 ((payload.drop 84).take 16) false 16,
                Out.cur_rec (to_int32 (le_value ((payload.drop 100).take 4))),
                Out.progress 136, Out.summary 1 136 136] } := by
  obtain ⟨a, b, c, d, e, f, g, i, rfl⟩ := length_eight handle hh
  obtain ⟨items, hi, hfull⟩ := @parse_load_lib_full payload 108 (by omega) (by omega)
  refine ⟨items, hi, ?_⟩
  have hdr : decode_API_HEADER (scenario_header [a, b, c, d, e, f, g, i])
      = { api_id := 0x90000001, api_size := 27, api_handle := le_value [a, b, c, d, e, f, g, i],
          api_seq := 1, duration := 0, result := 0 } := by
    simp [decode_API_HEADER, scenario_header, offsetof, API_HEADER_layout, le_value]
    exact ⟨rfl, rfl⟩
  have hfr : Msg.framed { header := scenario_header [a, b, c, d, e, f, g, i], payload := payload } := by
    refine ⟨by simp [scenario_header, sizeof_API_HEADER_eq], ?_⟩
    simp only [Msg.api_size, hdr, hp]
    norm_num
  have hrun := parse_binary_file_stream
    [{ header := scenario_header [a, b, c, d, e, f, g, i], payload := payload }] malloc_ok fuel
    (by intro m hm'; simp only [List.mem_singleton] at hm'; subst hm'; exact hfr)
    (by intro m hm'; simp only [List.mem_singleton] at hm'; subst hm'; rw [hp]; exact hm)
    (by simpa using hfuel)
  have hs : stream [{ header := scenario_header [a, b, c, d, e, f, g, i], payload := payload }]
      = scenario_header [a, b, c, d, e, f, g, i] ++ payload := by
    simp [stream, Msg.bytes]
  have hl : (scenario_header [a, b, c, d, e, f, g, i] ++ payload).length = 136 := by
    simp [scenario_header, hp]
  rw [hs, hl] at hrun
  rw [hrun]
  have hd : dispatch 0x90000001 payload 108 = parse_load_lib_payload payload 108 := rfl
  have hname : api_id_to_string 0x90000001 = "A53LITE_LOAD_LIB" := rfl
  simp only [stream_lines, msg_lines, Msg.api_id, hdr, hp, parse_api_header, hd, hfull, hname,
    sizeof_API_HEADER_eq]
  simp

set_option maxRecDepth 100000 in
/-- Witness of C6 amended: the sample handle and payload. -/
theorem load_lib_scenario_witness :
    ∃ items, print_string_loop ((sample_load_lib_payload.drop 20).take 64) 64 = some items ∧
      parse_binary_file (scenario_header sample_handle ++ sample_load_lib_payload)
          (fun _ => true) 2
        = some
            { pos := 136
              message_count := 1
              total_bytes_processed := 136
              out := [Out.start 136, Out.msg_banner 1 0, Out.hdr_banner,
                Out.hdr_api_id 0x90000001 "A53LITE_LOAD_LIB", Out.hdr_api_size 27 108,
                Out.hdr_handle (le_value sample_handle), Out.hdr_seq 1, Out.hdr_duration 0,
                Out.hdr_result 0, Out.load_lib_banner,
                Out.library_path (le_value (sample_load_lib_payload.take 8)),
                Out.library_addr (le_value ((sample_load_lib_payload.drop 8).take 8)),
                Out.lib_size (le_value ((sample_load_lib_payload.drop 16).take 4)),
                Out.str Label.lib_name items,
                Out.hex Label.md5 ((sample_load_lib_payload.drop 84).take 16) false 16,
                Out.cur_rec (to_int32 (le_value ((sample_load_lib_payload.drop 100).take 4))),
                Out.progress 136, Out.summary 1 136 136] } :=
  load_lib_scenario sample_handle sample_load_lib_payload (fun _ => true) 2
    (by decide) (by decide) rfl (by decide)

/-! ## C7 to C10: the payload decoders -/

/-- C7, as the claim states it, fails: a Load-Library payload of 104 bytes, which is
shorter than 108, gets the full six-field decode and no warning. -/
theorem load_lib_threshold_counterexample :
    (104 : Nat) < 108 ∧
    (parse_load_lib_payload (List.replicate 104 0) 104).map is_full_load_lib = some true ∧
    (parse_load_lib_payload (List.replicate 104 0) 104).map (fun lines => lines.any Out.is_warning)
      = some false := by
  decide

/-- C7, amended: the Load/Unload-Library struct is 104 bytes (8 + 8 + 4 + 64 + 16 + 4), and for
every payload length n, parse_load_lib_payload prints the full six-field decode without
any warning if and only if n is at least 104. -/
theorem load_lib_full_decode_iff (data : List Byte) (n : Nat) (hlen : data.length = n) :
    sizeof_load_library = 104 ∧
    ((∃ lines, parse_load_lib_payload data n = some lines ∧ is_full_load_lib lines = true ∧
        ∀ o ∈ lines, o.is_warning = false) ↔ 104 ≤ n) := by
  refine ⟨rfl, ?_, ?_⟩
  · rintro ⟨lines, h1, h2, h3⟩
    by_contra hlt
    have hlt : n < 104 := by omega
    rw [parse_load_lib_short hlt (by omega)] at h1
    have h1 := (Option.some.inj h1).symm
    subst h1
    split at h2 <;> simp [is_full_load_lib] at h2
  · intro h
    obtain ⟨items, _, h2⟩ := parse_load_lib_full h (by omega : n ≤ data.length)
    refine ⟨_, h2, rfl, ?_⟩
    intro o ho
    simp only [List.mem_cons, List.mem_singleton, List.not_mem_nil, or_false] at ho
    rcases ho with rfl | rfl | rfl | rfl | rfl | rfl | rfl <;> rfl

/-- Witness of C7 amended: a payload of 104 zero bytes. -/
theorem load_lib_full_decode_iff_witness :
    (List.replicate 104 (0 : Byte)).length = 104 ∧
    sizeof_load_library = 104 ∧
    ((∃ lines, parse_load_lib_payload (List.replicate 104 0) 104 = some lines ∧
        is_full_load_lib lines = true ∧ ∀ o ∈ lines, o.is_warning = false) ↔ 104 ≤ 104) :=
  ⟨by decide, load_lib_full_decode_iff (List.replicate 104 0) 104 (by decide)⟩

/-- C8: a Load/Unload-Library payload shorter than the struct is decoded without a read
outside the payload (the decoder returns a value on a buffer of exactly the payload bytes,
and the bytes after the payload do not change it): the output is the banner, the size
warning, and then the library path (offset 0), the library address (offset 8) and the size
(offset 16) when at least 20 bytes are present, and no field when fewer are. -/
theorem load_lib_truncated (data : List Byte) (n : Nat) (hlen : data.length = n)
    (h : n < sizeof_load_library) :
    parse_load_lib_payload data n
      = some (if 20 ≤ n then
          [Out.load_lib_banner, Out.size_warning sizeof_load_library n,
           Out.library_path (le_value (data.take 8)),
           Out.library_addr (le_value ((data.drop 8).take 8)),
           Out.lib_size (le_value ((data.drop 16).take 4))]
        else [Out.load_lib_banner, Out.size_warning sizeof_load_library n]) ∧
    (∀ rest : List Byte,
      parse_load_lib_payload (data ++ rest) n = parse_load_lib_payload data n) := by
  have h104 : n < 104 := by rw [sizeof_load_library_eq] at h; exact h
  refine ⟨parse_load_lib_short h104 (by omega), ?_⟩
  intro rest
  rw [@parse_load_lib_short data n h104 (by omega),
    @parse_load_lib_short (data ++ rest) n h104 (by simp only [List.length_append]; omega)]
  by_cases h20 : 20 ≤ n
  · have t1 : (data ++ rest).take 8 = data.take 8 :=
      List.take_append_of_le_length (by omega)
    have t2 : ((data ++ rest).drop 8).take 8 = (data.drop 8).take 8 := by
      rw [List.drop_append_of_le_length (by omega)]
      exact List.take_append_of_le_length (by simp only [List.length_drop]; omega)
    have t3 : ((data ++ rest).drop 16).take 4 = (data.drop 16).take 4 := by
      rw [List.drop_append_of_le_length (by omega)]
      exact List.take_append_of_le_length (by simp only [List.length_drop]; omega)
    rw [t1, t2, t3]
  · simp only [h20, if_false]

/-- Witness of C8: a payload of 20 bytes. -/
theorem load_lib_truncated_witness :
    parse_load_lib_payload (List.replicate 20 1) 20
      = some (if 20 ≤ 20 then
          [Out.load_lib_banner, Out.size_warning sizeof_load_library 20,
           Out.library_path (le_value ((List.replicate 20 1).take 8)),
           Out.library_addr (le_value (((List.replicate 20 1).drop 8).take 8)),
           Out.lib_size (le_value (((List.replicate 20 1).drop 16).take 4))]
        else [Out.load_lib_banner, Out.size_warning sizeof_load_library 20]) ∧
    (∀ rest : List Byte,
      parse_load_lib_payload (List.replicate 20 1 ++ rest) 20
        = parse_load_lib_payload (List.replicate 20 1) 20) :=
  load_lib_truncated (List.replicate 20 1) 20 (by decide) (by decide)

/-- C9: the Get-Function struct is 88 bytes; on a payload of at least 88 bytes
parse_get_func_payload prints core_id and f_id, each the signed 32-bit reading (two's
complement, in the range -2^31 .. 2^31 - 1) of the word at offset 0 and at offset 4, then md5
(the 16 bytes at offset 8) and func_name (read from the 64-byte field at offset 24), and no
warning; on a shorter payload it prints the size warning and no field. -/
theorem get_func_decode (data : List Byte) (n : Nat) (hlen : data.length = n) :
    sizeof_get_func = 88 ∧
    (88 ≤ n → ∃ (items : List StrItem) (lines : List Out) (core f : Int),
      print_string_loop ((data.drop 24).take 64) 64 = some items ∧
      parse_get_func_payload data n = some lines ∧
      lines = [Out.get_func_banner, Out.core_id core, Out.f_id f,
               Out.hex Label.md5 ((data.drop 8).take 16) false 16,
               Out.str Label.func_name items] ∧
      core = (if le_value (data.take 4) < 2 ^ 31 then (le_value (data.take 4) : Int)
              else (le_value (data.take 4) : Int) - 2 ^ 32) ∧
      f = (if le_value ((data.drop 4).take 4) < 2 ^ 31 then (le_value ((data.drop 4).take 4) : Int)
           else (le_value ((data.drop 4).take 4) : Int) - 2 ^ 32) ∧
      -(2 : Int) ^ 31 ≤ core ∧ core < (2 : Int) ^ 31 ∧
      -(2 : Int) ^ 31 ≤ f ∧ f < (2 : Int) ^ 31 ∧
      ∀ o ∈ lines, o.is_warning = false) ∧
    (n < 88 → ∃ lines,
      parse_get_func_payload data n = some lines ∧
      lines = [Out.get_func_banner, Out.size_warning 88 n] ∧
      ∀ o ∈ lines, o.is_field = false) := by
  refine ⟨rfl, ?_, ?_⟩
  · intro h
    obtain ⟨items, h1, h2⟩ := @parse_get_func_full data n h (by omega)
    obtain ⟨c1, c2, _, c4, c5⟩ := to_int32_signed _ (le_value_take4_lt data)
    obtain ⟨f1, f2, _, f4, f5⟩ := to_int32_signed _ (le_value_take4_lt (data.drop 4))
    refine ⟨items, _, to_int32 (le_value (data.take 4)),
      to_int32 (le_value ((data.drop 4).take 4)), h1, h2, rfl, ?_, ?_, c1, c2, f1, f2, ?_⟩
    · split
      · exact c4 (by assumption)
      · exact c5 (by omega)
    · split
      · exact f4 (by assumption)
      · exact f5 (by omega)
    · intro o ho
      simp only [List.mem_cons, List.mem_singleton, List.not_mem_nil, or_false] at ho
      rcases ho with rfl | rfl | rfl | rfl | rfl <;> rfl
  · intro h
    refine ⟨_, @parse_get_func_short data n h, rfl, ?_⟩
    intro o ho
    simp only [List.mem_cons, List.mem_singleton, List.not_mem_nil, or_false] at ho
    rcases ho with rfl | rfl <;> rfl

set_option maxRecDepth 100000 in
/-- Witness of C9: a payload of 88 bytes whose first words are FF FF FF FF and FE FF FF FF:
core_id is printed as -1 and f_id as -2. -/
theorem get_func_decode_witness :
    sample_get_func_payload.length = 88 ∧
    parse_get_func_payload sample_get_func_payload 88
      = some [Out.get_func_banner, Out.core_id (-1), Out.f_id (-2),
              Out.hex Label.md5 (List.replicate 16 0x41) false 16,
              Out.str Label.func_name (List.replicate 64 (StrItem.chr 0x41))] := by
  refine ⟨by decide, ?_⟩
  obtain ⟨items, lines, core, f, h1, h2, h3, h4, h5, _⟩ :=
    (get_func_decode sample_get_func_payload 88 (by decide)).2.1 (by decide)
  have e1 : print_string_loop ((sample_get_func_payload.drop 24).take 64) 64
      = some (List.replicate 64 (StrItem.chr 0x41)) := by decide
  rw [e1] at h1
  have hi := (Option.some.inj h1).symm
  have u1 : le_value (sample_get_func_payload.take 4) = 4294967295 := by decide
  have u2 : le_value ((sample_get_func_payload.drop 4).take 4) = 4294967294 := by decide
  have e2 : (sample_get_func_payload.drop 8).take 16 = List.replicate 16 0x41 := by decide
  rw [u1] at h4
  rw [u2] at h5
  have hc : core = -1 := by rw [h4]; norm_num
  have hf : f = -2 := by rw [h5]; norm_num
  rw [h2, h3, hi, hc, hf, e2]

/-- C10, as the claim states it, fails at a payload of exactly 8 bytes: the declared
parameter size 1 is above the 0 available bytes, and no warning is printed. -/
theorem launch_func_warning_counterexample :
    declared_param_size [0, 0, 0, 0, 1, 0, 0, 0] > 8 - 8 ∧
    parse_launch_func_payload [0, 0, 0, 0, 1, 0, 0, 0] 8
      = some [Out.launch_func_banner, Out.f_id 0, Out.param_size 1, Out.available 0] := by
  decide

/-- C10, amended: for every Launch-Function payload of n >= 8 bytes with declared parameter
size p, parse_launch_func_payload reports n - 8 as the available parameter byte count, and
prints the size-mismatch warning (its only warning) if and only if n > 8 and p > n - 8. -/
theorem launch_func_available (data : List Byte) (n : Nat) (hlen : data.length = n)
    (h8 : 8 ≤ n) :
    ∃ lines, parse_launch_func_payload data n = some lines ∧
      Out.available (n - 8) ∈ lines ∧
      (∀ v, Out.available v ∈ lines → v = n - 8) ∧
      (Out.param_warning (declared_param_size data) (n - 8) ∈ lines
        ↔ 8 < n ∧ n - 8 < declared_param_size data) ∧
      ((∃ o ∈ lines, o.is_warning = true) ↔ 8 < n ∧ n - 8 < declared_param_size data) := by
  refine ⟨_, @parse_launch_full data n h8 (by omega), ?_, ?_, ?_, ?_⟩
  · simp
  · intro v hv
    by_cases a : 8 < n <;> by_cases b : n - 8 < declared_param_size data <;>
      simp [a, b] at hv <;> exact hv
  · by_cases a : 8 < n <;> by_cases b : n - 8 < declared_param_size data <;> simp [a, b]
  · by_cases a : 8 < n <;> by_cases b : n - 8 < declared_param_size data <;>
      simp [a, b, Out.is_warning]

set_option maxRecDepth 100000 in
/-- Witness of C10 amended, the scenario of the specification: declared parameter size 5000
and a payload of 200 bytes give the warning and an available count of 192. -/
theorem launch_func_available_witness :
    ∃ lines,
      parse_launch_func_payload ([0, 0, 0, 0, 0x88, 0x13, 0, 0] ++ List.replicate 192 0) 200
        = some lines ∧
      Out.available 192 ∈ lines ∧ Out.param_warning 5000 192 ∈ lines := by
  obtain ⟨lines, h1, h2, _, h3, _⟩ :=
    launch_func_available ([0, 0, 0, 0, 0x88, 0x13, 0, 0] ++ List.replicate 192 0) 200
      (by decide) (by decide)
  have hp : declared_param_size ([0, 0, 0, 0, 0x88, 0x13, 0, 0] ++ List.replicate 192 0) = 5000 := by
    decide
  rw [hp] at h3
  exact ⟨lines, h1, h2, h3.mpr ⟨by decide, by decide⟩⟩

/-! ## Lemmas for C11 to C20 -/

/-- The scan of `print_string` returns the bytes of the field before its first zero byte,
each written by `render_byte`. -/
theorem print_string_loop_eq (n : Nat) :
    ∀ data : List Byte, n ≤ data.length →
      print_string_loop data n
        = some (((data.take n).takeWhile (fun b => decide (b.val ≠ 0))).map render_byte) := by
  induction n with
  | zero => intro data _; simp [print_string_loop]
  | succ n ih =>
    intro data h
    cases data with
    | nil => simp at h
    | cons b rest =>
      have hr : n ≤ rest.length := by simpa using h
      by_cases hb : b.val = 0
      · simp [print_string_loop, hb]
      · simp [print_string_loop, hb, ih rest hr, render_byte]

theorem takeWhile_length_first_zero (i : Nat) :
    ∀ data : List Byte, data[i]? = some 0 → (∀ j, j < i → data[j]? ≠ some 0) →
      (data.takeWhile (fun b => decide (b.val ≠ 0))).length = i := by
  induction i with
  | zero =>
    intro data h0 _
    cases data with
    | nil => simp
    | cons b rest =>
      simp only [List.getElem?_cons_zero, Option.some.injEq] at h0
      subst h0
      simp
  | succ i ih =>
    intro data h0 hfirst
    cases data with
    | nil => simp at h0
    | cons b rest =>
      have hb : b.val ≠ 0 := by
        have := hfirst 0 (Nat.succ_pos i)
        simp only [List.getElem?_cons_zero, ne_eq, Option.some.injEq] at this
        intro hv
        exact this (Fin.ext hv)
      have hrest := ih rest (by simpa using h0)
        (fun j hj => by simpa using hfirst (j + 1) (Nat.succ_lt_succ hj))
      rw [List.takeWhile_cons_of_pos (by simpa using hb), List.length_cons, hrest]

theorem map_byte_render (l : List Byte) : (l.map render_byte).map StrItem.byte = l := by
  induction l with
  | nil => rfl
  | cons b rest ih =>
    simp only [List.map_cons, ih, List.cons.injEq, and_true]
    unfold render_byte
    split <;> rfl

/-- The declared byte count is four times the word count when the word count is below
2^30. -/
theorem declared_at_of_lt (file : List Byte) (pos : Nat)
    (h : (header_at file pos).api_size < 2 ^ 30) :
    declared_at file pos = (header_at file pos).api_size * 4 := by
  unfold declared_at
  omega

theorem exists_truncation_of_short (api_id : Nat) (data : List Byte)
    (hk : known_api_id api_id) (hmin : data.length < structural_minimum api_id) :
    ∃ lines, dispatch api_id data data.length = some lines ∧
      ∃ o ∈ lines, o.is_truncation = true := by
  rcases dispatch_cases api_id data data.length with
    ⟨e, hd⟩ | ⟨e, hd⟩ | ⟨e, hd⟩ | ⟨e, hd⟩ | ⟨e, hd⟩
  · have hn : data.length < 104 := by rw [e] at hmin; exact hmin
    refine ⟨_, by rw [hd]; exact @parse_load_lib_short data _ hn (le_refl _),
      Out.size_warning sizeof_load_library data.length, ?_, rfl⟩
    split <;> simp
  · have hn : data.length < 88 := by rw [e] at hmin; exact hmin
    exact ⟨_, by rw [hd]; exact @parse_get_func_short data _ hn,
      Out.size_warning sizeof_get_func data.length, by simp, rfl⟩
  · have hn : data.length < 8 := by rw [e] at hmin; exact hmin
    exact ⟨_, by rw [hd]; exact @parse_launch_short data _ hn,
      Out.launch_error 8 data.length, by simp, rfl⟩
  · have hn : data.length < 104 := by rw [e] at hmin; exact hmin
    refine ⟨_, by rw [hd]; exact @parse_load_lib_short data _ hn (le_refl _),
      Out.size_warning sizeof_load_library data.length, ?_, rfl⟩
    split <;> simp
  · exact absurd hk (by
      unfold known_api_id
      intro h
      rcases h with h | h | h | h
      · exact e.1 h
      · exact e.2.1 h
      · exact e.2.2.1 h
      · exact e.2.2.2 h)

theorem dispatch_unknown (api_id : Nat) (data : List Byte) (hu : ¬ known_api_id api_id) :
    dispatch api_id data data.length
      = some [Out.unknown_api,
          Out.hex Label.raw_payload (data.take (min data.length 16))
            (decide (16 < min data.length 256)) (min data.length 256)] := by
  rcases dispatch_cases api_id data data.length with
    ⟨e, _⟩ | ⟨e, _⟩ | ⟨e, _⟩ | ⟨e, _⟩ | ⟨_, hd⟩
  · exact absurd (Or.inl e) hu
  · exact absurd (Or.inr (Or.inl e)) hu
  · exact absurd (Or.inr (Or.inr (Or.inl e))) hu
  · exact absurd (Or.inr (Or.inr (Or.inr e))) hu
  · rw [hd, dispatch_unknown_eq]
    have e : min (min data.length 256) 16 = min data.length 16 := by omega
    rw [e]

theorem sample_big_launch_framed : sample_big_launch_msg.framed := by
  refine ⟨by decide, ?_⟩
  have h1 : sample_big_launch_msg.api_size = 1027 := by decide
  have h2 : sample_big_launch_msg.payload.length = 4108 := by
    simp only [sample_big_launch_msg, List.length_append, List.length_replicate,
      List.length_cons, List.length_nil]
  rw [h1, h2]
  norm_num

theorem max_iterations_eq (n : Nat) : max_iterations n = (n + 27) / 28 := by
  simp [max_iterations, sizeof_API_HEADER_eq]

theorem payload_at_length (file : List Byte) (pos : Nat) :
    (payload_at file pos).length
      = min (declared_at file pos) (file.length - (pos + sizeof_API_HEADER)) := by
  unfold payload_at; rw [fread_length]

/-- One iteration on a complete header whose payload cannot be allocated: line 256 is
printed and the loop is left. -/
theorem loop_body_alloc_fail_eq (file : List Byte) (malloc_ok : Nat → Bool) (s : State)
    (h : s.pos + sizeof_API_HEADER ≤ file.length) (hd : 0 < declared_at file s.pos)
    (hm : malloc_ok (declared_at file s.pos) = false) :
    loop_body file malloc_ok s
      = some (Flow.stop
          { pos := s.pos + sizeof_API_HEADER
            message_count := s.message_count + 1
            total_bytes_processed := s.total_bytes_processed
            out := (s.out ++ [Out.msg_banner (s.message_count + 1) s.total_bytes_processed]
              ++ parse_api_header (header_at file s.pos)) ++ [Out.alloc_fail] }) := by
  have hr := header_read_full h
  unfold loop_body
  simp only [hr, ne_eq, not_true_eq_false, if_false]
  change (if declared_at file s.pos > 0 then _ else _) = _
  rw [if_pos hd]
  change (if malloc_ok (declared_at file s.pos) = false then _ else _) = _
  rw [if_pos hm]
  rfl

/-- The three ways an iteration ends: on a header cut short, on a failed allocation, or at
the end of the body, with the position and the total advanced by the header and the payload
bytes read. -/
theorem loop_body_cases (file : List Byte) (malloc_ok : Nat → Bool) (s : State) :
    (file.length < s.pos + sizeof_API_HEADER ∧
      loop_body file malloc_ok s
        = some (Flow.stop
            { pos := s.pos + (file.length - s.pos)
              message_count := s.message_count + 1
              total_bytes_processed := s.total_bytes_processed
              out := s.out ++ [Out.msg_banner (s.message_count + 1) s.total_bytes_processed,
                Out.header_fail sizeof_API_HEADER (file.length - s.pos)] })) ∨
    (s.pos + sizeof_API_HEADER ≤ file.length ∧ malloc_ok (declared_at file s.pos) = false ∧
      ∃ s', loop_body file malloc_ok s = some (Flow.stop s') ∧
        s'.message_count = s.message_count + 1 ∧
        s'.total_bytes_processed = s.total_bytes_processed) ∨
    (s.pos + sizeof_API_HEADER ≤ file.length ∧
      ∃ s', loop_body file malloc_ok s = some (Flow.next s') ∧
        s'.pos = s.pos + (sizeof_API_HEADER + (payload_at file s.pos).length) ∧
        s'.total_bytes_processed
          = s.total_bytes_processed + (sizeof_API_HEADER + (payload_at file s.pos).length) ∧
        s'.message_count = s.message_count + 1 ∧
        ∃ lines, s'.out = s.out ++ Out.msg_banner (s.message_count + 1) s.total_bytes_processed ::
          (parse_api_header (header_at file s.pos) ++
            ((if (payload_at file s.pos).length ≠ declared_at file s.pos then
                [Out.short_payload (declared_at file s.pos) (payload_at file s.pos).length]
              else []) ++ lines))) := by
  by_cases hh : s.pos + sizeof_API_HEADER ≤ file.length
  · by_cases hd : declared_at file s.pos = 0
    · right; right
      have hp : (payload_at file s.pos).length = 0 := by
        have := payload_at_length_le file s.pos
        omega
      refine ⟨hh, _, loop_body_no_payload file malloc_ok s hh hd, ?_, ?_, rfl, ?_⟩
      · rw [hp]; rfl
      · rw [hp]; rfl
      · refine ⟨[Out.no_payload, Out.progress (s.total_bytes_processed + sizeof_API_HEADER)], ?_⟩
        simp [hp, hd]
    · by_cases hm : malloc_ok (declared_at file s.pos) = true
      · right; right
        obtain ⟨lines, _, hb⟩ := loop_body_payload file malloc_ok s hh (by omega) hm
        refine ⟨hh, _, hb, ?_, rfl, rfl, ?_⟩
        · simp only [Nat.add_assoc]
        · exact ⟨_, rfl⟩
      · right; left
        have hm2 : malloc_ok (declared_at file s.pos) = false := by simpa using hm
        exact ⟨hh, hm2, _, loop_body_alloc_fail_eq file malloc_ok s hh (by omega) hm2, rfl, rfl⟩
  · left
    exact ⟨by omega, loop_body_partial_header file malloc_ok s (by omega)⟩

/-- The loop ends within the fuel that covers the bytes left at a header per iteration, and
runs at most that many iterations. -/
theorem parse_loop_terminates (file : List Byte) (malloc_ok : Nat → Bool) :
    ∀ (fuel : Nat) (s : State),
      max_iterations (file.length - s.total_bytes_processed) < fuel →
      ∃ r, parse_loop file malloc_ok fuel s = some r ∧
        r.message_count
          ≤ s.message_count + max_iterations (file.length - s.total_bytes_processed) := by
  have h28 := sizeof_API_HEADER_eq
  intro fuel
  induction fuel with
  | zero => intro s h; omega
  | succ fuel ih =>
    intro s h
    rw [max_iterations_eq] at h ⊢
    by_cases hlt : s.total_bytes_processed < file.length
    · rw [parse_loop, if_pos hlt]
      rcases loop_body_cases file malloc_ok s with
        ⟨_, hb⟩ | ⟨_, _, s', hb, hc, _⟩ | ⟨_, s', hb, _, ht, hc, _⟩
      · rw [hb]
        exact ⟨_, rfl, by simp only []; omega⟩
      · rw [hb]
        exact ⟨_, rfl, by rw [hc]; omega⟩
      · rw [hb]
        simp only []
        obtain ⟨r, hr, hle⟩ := ih s' (by rw [max_iterations_eq, ht]; omega)
        refine ⟨r, hr, ?_⟩
        rw [max_iterations_eq, ht, hc] at hle
        omega
    · rw [parse_loop, if_neg hlt]
      exact ⟨s, rfl, by omega⟩

/-- After every iteration that runs to the end of the body, total_bytes_processed is the
read position, which is within the file, and message_count is the number of iterations. -/
theorem completed_inv (file : List Byte) (malloc_ok : Nat → Bool) :
    ∀ (k : Nat) (s : State), completed file malloc_ok k = some s →
      s.total_bytes_processed = s.pos ∧ s.pos ≤ file.length ∧ s.message_count = k := by
  intro k
  induction k with
  | zero =>
    intro s h
    simp only [completed, Option.some.injEq] at h
    rw [← h]
    exact ⟨rfl, Nat.zero_le _, rfl⟩
  | succ k ih =>
    intro s' h
    obtain ⟨s, hk, _, hb⟩ := completed_succ file malloc_ok k s' h
    obtain ⟨i1, i2, i3⟩ := ih s hk
    rcases loop_body_cases file malloc_ok s with
      ⟨_, hb2⟩ | ⟨_, _, t, hb2, _, _⟩ | ⟨hh, t, hb2, hp, ht, hc, _⟩
    · rw [hb2] at hb; cases hb
    · rw [hb2] at hb; cases hb
    · rw [hb2] at hb
      have e := Flow.next.inj (Option.some.inj hb)
      subst e
      have hl := payload_at_length file s.pos
      refine ⟨by rw [hp, ht, i1], ?_, by rw [hc, i3]⟩
      rw [hp]; omega

/-- How the loop ends: with total_bytes_processed equal to the file size, or on a header cut
short whose 1 to 27 bytes are read and not counted, or on a failed allocation, after the
header of that message is read and not counted. -/
theorem parse_loop_end (file : List Byte) (malloc_ok : Nat → Bool) :
    ∀ (fuel : Nat) (s r : State),
      s.total_bytes_processed = s.pos → s.pos ≤ file.length →
      parse_loop file malloc_ok fuel s = some r →
      r.total_bytes_processed = file.length ∨
      (1 ≤ file.length - r.total_bytes_processed ∧
        file.length - r.total_bytes_processed < sizeof_API_HEADER ∧
        r.pos = file.length ∧
        ∃ lines, r.out = lines ++
          [Out.header_fail sizeof_API_HEADER (file.length - r.total_bytes_processed)]) ∨
      (r.total_bytes_processed + sizeof_API_HEADER ≤ file.length ∧
        r.pos = r.total_bytes_processed + sizeof_API_HEADER ∧
        0 < declared_at file r.total_bytes_processed ∧
        malloc_ok (declared_at file r.total_bytes_processed) = false ∧
        ∃ lines, r.out = lines ++ [Out.alloc_fail]) := by
  intro fuel
  induction fuel with
  | zero => intro s r _ _ h; simp [parse_loop] at h
  | succ fuel ih =>
    intro s r h1 h2 h
    by_cases hlt : s.total_bytes_processed < file.length
    · rw [parse_loop, if_pos hlt] at h
      by_cases hh : s.pos + sizeof_API_HEADER ≤ file.length
      · by_cases hd : declared_at file s.pos = 0
        · rw [loop_body_no_payload file malloc_ok s hh hd] at h
          simp only [] at h
          exact ih _ r (by simp only []; rw [h1]) (by simp only []; exact hh) h
        · by_cases hm : malloc_ok (declared_at file s.pos) = true
          · obtain ⟨lines, _, hb⟩ := loop_body_payload file malloc_ok s hh (by omega) hm
            rw [hb] at h
            simp only [] at h
            have hl := payload_at_length file s.pos
            exact ih _ r (by simp only []; rw [h1]; omega) (by simp only []; omega) h
          · have hm2 : malloc_ok (declared_at file s.pos) = false := by simpa using hm
            rw [loop_body_alloc_fail_eq file malloc_ok s hh (by omega) hm2] at h
            simp only [Option.some.injEq] at h
            subst h
            right; right
            simp only []
            rw [h1]
            exact ⟨hh, rfl, by omega, hm2, _, rfl⟩
      · rw [loop_body_partial_header file malloc_ok s (by omega)] at h
        simp only [Option.some.injEq] at h
        subst h
        right; left
        simp only []
        refine ⟨by omega, by omega, by omega, ?_⟩
        rw [h1]
        exact ⟨s.out ++ [Out.msg_banner (s.message_count + 1) s.pos], by simp⟩
    · rw [parse_loop, if_neg hlt] at h
      simp only [Option.some.injEq] at h
      subst h
      left
      omega

/-! ## C11 to C20 -/

/-- C12: print_string on a field of width max_len prints exactly the longest prefix of the
field that has no zero byte, each byte kept (as a character when printable, as an escape
when not): its length is the index of the first zero byte of the field if there is one and
max_len if there is none, and the bytes after the field do not matter. -/
theorem print_string_content (label : Label) (data : List Byte) (max_len : Nat)
    (h : max_len ≤ data.length) :
    ∃ items, print_string label data max_len = some (Out.str label items) ∧
      items = ((data.take max_len).takeWhile (fun b => decide (b.val ≠ 0))).map render_byte ∧
      items.map StrItem.byte = (data.take max_len).takeWhile (fun b => decide (b.val ≠ 0)) ∧
      ((∀ i, i < max_len → data[i]? ≠ some 0) → items.length = max_len) ∧
      (∀ i, i < max_len → data[i]? = some 0 → (∀ j, j < i → data[j]? ≠ some 0) →
        items.length = i) ∧
      print_string label (data.take max_len) max_len = print_string label data max_len := by
  refine ⟨_, by rw [print_string, print_string_loop_eq max_len data h]; rfl, rfl,
    map_byte_render _, ?_, ?_, ?_⟩
  · intro hz
    have hall : (data.take max_len).takeWhile (fun b => decide (b.val ≠ 0)) = data.take max_len := by
      rw [List.takeWhile_eq_self_iff]
      intro b hb
      obtain ⟨i, hi, rfl⟩ := List.mem_iff_getElem.mp hb
      have hi2 : i < max_len := by
        rw [List.length_take] at hi; omega
      have := hz i hi2
      rw [List.getElem_take]
      have hd : i < data.length := by omega
      rw [List.getElem?_eq_getElem hd] at this
      simp only [ne_eq, Option.some.injEq] at this
      simp only [ne_eq, decide_eq_true_eq]
      intro hv
      exact this (Fin.ext hv)
    rw [List.length_map, hall, List.length_take]
    omega
  · intro i hi h0 hfirst
    rw [List.length_map]
    apply takeWhile_length_first_zero i
    · rw [List.getElem?_take_of_lt hi]; exact h0
    · intro j hj
      rw [List.getElem?_take_of_lt (by omega)]
      exact hfirst j hj
  · rw [print_string, print_string, print_string_loop_eq max_len data h,
      print_string_loop_eq max_len (data.take max_len) (by rw [List.length_take]; omega),
      List.take_take, Nat.min_self]

set_option maxRecDepth 100000 in
/-- Witness of C12: the 64-byte name field of the sample Load-Library payload, whose first
zero byte is at index 3. -/
theorem print_string_content_witness :
    ∃ items, print_string Label.lib_name (sample_load_lib_payload.drop 20) 64
        = some (Out.str Label.lib_name items) ∧
      items.map StrItem.byte = [0x6C, 0x69, 0x62] ∧ items.length = 3 := by
  obtain ⟨items, h1, _, h3, _, h5, _⟩ :=
    print_string_content Label.lib_name (sample_load_lib_payload.drop 20) 64 (by decide)
  refine ⟨items, h1, ?_, h5 3 (by decide) (by decide) (by decide)⟩
  rw [h3]
  decide

/-- C13: an Unload-Library payload is decoded by the Load-Library decoder: the decoder of
the 0x90000004 branch and the one of the 0x90000001 branch return the same lines on every
byte sequence and every payload length. -/
theorem unload_same_as_load (data : List Byte) (payload_bytes : Nat) :
    parse_unload_lib_payload data payload_bytes = parse_load_lib_payload data payload_bytes ∧
    dispatch API_ID_A53LITE_UNLOAD_LIB data payload_bytes
      = dispatch API_ID_A53LITE_LOAD_LIB data payload_bytes :=
  ⟨rfl, rfl⟩

set_option maxRecDepth 100000 in
/-- C14 at a concrete input: a header whose payload word count is 0x40000000. The byte count
the decoder uses is 0, not 0x40000000 * 4: the header line prints 1073741824 words = 0
bytes, the payload is taken as absent, and no warning is printed. -/
theorem declared_bytes_wrap :
    (header_at sample_wrap_header 0).api_size = 0x40000000 ∧
    declared_at sample_wrap_header 0 = 0 ∧
    (parse_binary_file sample_wrap_header (fun _ => true) 2).map State.out
      = some [Out.start 28, Out.msg_banner 1 0, Out.hdr_banner, Out.hdr_api_id 0 "UNKNOWN",
          Out.hdr_api_size 1073741824 0, Out.hdr_handle 0, Out.hdr_seq 1, Out.hdr_duration 0,
          Out.hdr_result 0, Out.no_payload, Out.progress 28, Out.summary 1 28 28] := by
  decide

/-- C18, as the claim states it, fails: on the sequence 01 02 03 and offset 0, where
offset + 4 exceeds the length, read_uint32 has no out-of-bounds result: its copy of 4 bytes
goes outside the sequence. -/
theorem read_uint32_counterexample :
    0 + 4 > ([1, 2, 3] : List Byte).length ∧
    read_u32_at [1, 2, 3] 0 = ReadOutcome.stray_access ∧
    read_u32_at [1, 2, 3] 0 ≠ ReadOutcome.out_of_bounds := by
  decide

/-- C18, amended: for every byte sequence and offset with offset + 4 within the sequence,
read_uint32 at the offset returns the unsigned 32-bit integer formed by the 4 bytes that
start there, least significant byte first (01 00 00 90 reads as 0x90000001); the function
has no length argument and no out-of-bounds result, and when offset + 4 exceeds the length
its copy goes outside the sequence. -/
theorem read_uint32_value (bytes : List Byte) (offset : Nat) :
    (offset + 4 ≤ bytes.length →
      read_u32_at bytes offset = ReadOutcome.value (le_value ((bytes.drop offset).take 4)) ∧
      le_value ((bytes.drop offset).take 4) < 2 ^ 32) ∧
    (bytes.length < offset + 4 → read_u32_at bytes offset = ReadOutcome.stray_access) ∧
    read_u32_at bytes offset ≠ ReadOutcome.out_of_bounds ∧
    (∀ (b0 b1 b2 b3 : Byte) (rest : List Byte),
      read_uint32 (b0 :: b1 :: b2 :: b3 :: rest)
        = some (b0.val + 256 * (b1.val + 256 * (b2.val + 256 * b3.val)))) ∧
    read_u32_at [0x01, 0x00, 0x00, 0x90] 0 = ReadOutcome.value 0x90000001 := by
  refine ⟨?_, ?_, ?_, ?_, by decide⟩
  · intro h
    have hl : 0 + 4 ≤ (bytes.drop offset).length := by
      rw [List.length_drop]; omega
    refine ⟨?_, ?_⟩
    · simp only [read_u32_at, read_uint32, read_le_of_le hl, List.drop_zero]
    · have := le_value_lt ((bytes.drop offset).take 4)
      have hlen : ((bytes.drop offset).take 4).length = 4 := by
        rw [List.length_take, List.length_drop]; omega
      rw [hlen] at this
      norm_num at this ⊢
      exact this
  · intro h
    have hl : ¬ 0 + 4 ≤ (bytes.drop offset).length := by
      rw [List.length_drop]; omega
    simp only [read_u32_at, read_uint32, read_le, hl, if_false]
  · unfold read_u32_at
    split <;> simp
  · intro b0 b1 b2 b3 rest
    simp [read_uint32, read_le, le_value]

/-- Witness of C18 amended: the second word of the scenario header. -/
theorem read_uint32_value_witness :
    read_u32_at (scenario_header sample_handle) 4 = ReadOutcome.value 27 := by
  have h := (read_uint32_value (scenario_header sample_handle) 4).1 (by decide)
  rw [h.1]
  decide

/-- C19: parse_binary_file ends on every file, whatever the headers hold and whether or not
the allocations succeed: every iteration either leaves the loop or adds at least the header
size to total_bytes_processed, and the loop runs at most ceil(file_size / header size)
iterations. -/
theorem parse_binary_file_terminates (file : List Byte) (malloc_ok : Nat → Bool) (k : Nat) :
    (∃ r, parse_binary_file file malloc_ok (max_iterations file.length + 1 + k) = some r ∧
      r.message_count ≤ max_iterations file.length) ∧
    (∀ s : State, ∃ s',
      loop_body file malloc_ok s = some (Flow.stop s') ∨
      (loop_body file malloc_ok s = some (Flow.next s') ∧
        s.total_bytes_processed + sizeof_API_HEADER ≤ s'.total_bytes_processed)) ∧
    max_iterations file.length = (file.length + 27) / 28 := by
  refine ⟨?_, ?_, max_iterations_eq _⟩
  · obtain ⟨r, hr, hle⟩ := parse_loop_terminates file malloc_ok
      (max_iterations file.length + 1 + k) (initial_state file)
      (by simp only [initial_state, Nat.sub_zero]; omega)
    refine ⟨_, by rw [parse_binary_file, hr]; rfl, ?_⟩
    simpa [initial_state] using hle
  · intro s
    rcases loop_body_cases file malloc_ok s with
      ⟨_, hb⟩ | ⟨_, _, s', hb, _, _⟩ | ⟨_, s', hb, _, ht, _, _⟩
    · exact ⟨_, Or.inl hb⟩
    · exact ⟨s', Or.inl hb⟩
    · exact ⟨s', Or.inr ⟨hb, by rw [ht]; omega⟩⟩

set_option maxRecDepth 100000 in
/-- C20, as the claim states it, fails: on a Load-Library message of 136 bytes whose payload
buffer cannot be allocated, the loop ends at the break of line 257 with
total_bytes_processed = 0, below the file size, and not on a partial header: the header was
read in full and no header failure is printed. -/
theorem alloc_exit_counterexample :
    (parse_binary_file (stream [sample_load_lib_msg]) (fun _ => false) 7).map
        (fun s => (s.message_count, s.total_bytes_processed, s.pos,
          s.out.filter Out.is_warning))
      = some (1, 0, 28, [Out.alloc_fail]) ∧
    (stream [sample_load_lib_msg]).length = 136 := by
  decide

/-- C20, amended: for every input and whether or not the allocations succeed,
total_bytes_processed is at most the file size after every iteration of parse_binary_file,
and when the loop ends it is the file size, unless the loop ended on a partial header, in
which case the bytes not counted are the 1 to 27 bytes of that header (they were read: the
read position is the end of the file), or on a failed allocation of a payload buffer, in
which case the header of that message was read and the bytes not counted are that header and
all that follows it. -/
theorem total_within_file (file : List Byte) (malloc_ok : Nat → Bool) (k : Nat) :
    (∀ (j : Nat) (s : State), completed file malloc_ok j = some s →
      s.total_bytes_processed ≤ file.length) ∧
    ∃ r, parse_binary_file file malloc_ok (max_iterations file.length + 1 + k) = some r ∧
      r.total_bytes_processed ≤ file.length ∧
      (r.total_bytes_processed = file.length ∨
        (1 ≤ file.length - r.total_bytes_processed ∧
          file.length - r.total_bytes_processed < sizeof_API_HEADER ∧
          r.pos = file.length ∧
          ∃ lines, r.out = lines ++
            [Out.header_fail sizeof_API_HEADER (file.length - r.total_bytes_processed),
             Out.summary r.message_count r.total_bytes_processed file.length]) ∨
        (r.total_bytes_processed + sizeof_API_HEADER ≤ file.length ∧
          r.pos = r.total_bytes_processed + sizeof_API_HEADER ∧
          0 < declared_at file r.total_bytes_processed ∧
          malloc_ok (declared_at file r.total_bytes_processed) = false ∧
          ∃ lines, r.out = lines ++
            [Out.alloc_fail,
             Out.summary r.message_count r.total_bytes_processed file.length])) := by
  refine ⟨?_, ?_⟩
  · intro j s hj
    obtain ⟨i1, i2, _⟩ := completed_inv file malloc_ok j s hj
    omega
  · obtain ⟨r, hr, _⟩ := parse_loop_terminates file malloc_ok
      (max_iterations file.length + 1 + k) (initial_state file)
      (by simp only [initial_state, Nat.sub_zero]; omega)
    have hend := parse_loop_end file malloc_ok _ (initial_state file) r rfl (Nat.zero_le _) hr
    refine ⟨_, by rw [parse_binary_file, hr]; rfl, ?_, ?_⟩
    · simp only []
      rcases hend with he | ⟨he, _⟩ | ⟨he, _⟩ <;> omega
    · simp only []
      rcases hend with he | ⟨a, b, c, lines, hl⟩ | ⟨a, b, c, d, lines, hl⟩
      · exact Or.inl he
      · exact Or.inr (Or.inl ⟨a, b, c, lines, by rw [hl]; simp⟩)
      · exact Or.inr (Or.inr ⟨a, b, c, d, lines, by rw [hl]; simp⟩)

set_option maxRecDepth 100000 in
/-- Witness of C20 amended: a Load-Library message followed by 10 bytes; the loop ends
on the header cut short, 10 bytes below the file size. -/
theorem total_within_file_witness :
    ∃ r, parse_binary_file (stream [sample_load_lib_msg] ++ List.replicate 10 0)
        (fun _ => true) 7 = some r ∧
      r.total_bytes_processed = 136 ∧ r.pos = 146 := by
  obtain ⟨r, h1, _, _⟩ :=
    (total_within_file (stream [sample_load_lib_msg] ++ List.replicate 10 0) (fun _ => true)
      0).2
  have e : max_iterations (stream [sample_load_lib_msg] ++ List.replicate 10 0).length + 1 + 0
      = 7 := by decide
  rw [e] at h1
  have h2 : (parse_binary_file (stream [sample_load_lib_msg] ++ List.replicate 10 0)
      (fun _ => true) 7).map (fun s => (s.total_bytes_processed, s.pos)) = some (136, 146) := by
    decide
  rw [h1] at h2
  simp only [Option.map_some', Option.some.injEq, Prod.mk.injEq] at h2
  exact ⟨r, h1, h2.1, h2.2⟩

end TpuMsgCheck
